import Mathlib

/-!
# CHIP-8 interpreter core (`src/chip8-system.c`)

A shallow embedding of the interpreter state and of `CHIP8_EMULATECYCLE`.

* The global variables of the C file become the fields of `Machine`.
* C arrays are functions `Nat → Nat` together with their declared size; every
  access whose index is computed from data goes through `rd` / `wr`, which yield
  `none` when the index is outside the array (undefined behaviour in C). The
  register file is only ever indexed by a nibble or by the constant `0xF`.
* `unsigned char` / `unsigned short` stores are reduced modulo `2^8` / `2^16`
  wherever the stored expression can leave the range.
* The `double` accumulator is idealised as an exact rational number of
  milliseconds. The rounding of the C arithmetic is not modelled, so the number
  of timer ticks taken in a cycle and the value left in the accumulator are
  those of exact arithmetic and can differ from the compiled program's: in IEEE
  binary64, 1000.0 ms in a single call runs the loop 60 times (exact
  arithmetic: 59), 200.0 ms runs it 12 times (exact: 11), and for an
  accumulator near 1e18 the subtraction of `1000/60.0` leaves it unchanged.
  No result about an instruction depends on these values: the timer phase
  enters the cycle only through `timerAdvance_frame`, which holds for any
  number of iterations of the loop, and the results describe the cycles in
  which the program's timer loop ends.
* The SDL host (keyboard snapshot, pending event queue, `rand()`) is an explicit
  input `Host`; the events left in the queue are part of the result.
-/

namespace Chip8Emu

/-! ## Constants of the source -/

/-- Size of `memory` (`#define MEMORYSIZE 4096`). -/
def MEMORYSIZE : Nat := 4096

/-- Number of registers (`#define REGISTERCOUNT 16`). -/
def REGISTERCOUNT : Nat := 16

/-- Screen width in pixels (`#define SCREENX 64`). -/
def SCREENX : Nat := 64

/-- Screen height in pixels (`#define SCREENY 32`). -/
def SCREENY : Nat := 32

/-- Number of entries of `stack` (`#define STACKSIZE 16`). -/
def STACKSIZE : Nat := 16

/-- Number of keypad keys (`#define KEYPADSIZE 16`). -/
def KEYPADSIZE : Nat := 16

/-- Value of `SDL_KEYDOWN` in SDL2 (`SDL_events.h`). -/
def SDL_KEYDOWN : Nat := 0x300

/-- The table `keybinds[16]`, with the SDL2 scancode values of
`SDL_SCANCODE_X, _1, _2, _3, _Q, _W, _E, _A, _S, _D, _Z, _C, _4, _R, _F, _V`
(`SDL_scancode.h`: letters A..Z are 4..29, digits 1..9 are 30..38). -/
def keybinds : List Nat :=
  [27, 30, 31, 32,
   20, 26, 8, 4,
   22, 7, 29, 6,
   33, 21, 9, 25]

/-! ## Data model -/

/-- The part of an `SDL_Event` the interpreter looks at: `ev.type` and
`ev.key.keysym.scancode`. -/
structure SDL_Event where
  type : Nat
  scancode : Nat

/-- What the SDL host supplies to one cycle. -/
structure Host where
  /-- Array returned by `SDL_GetKeyboardState`, indexed by scancode. -/
  keyboardState : Nat → Nat
  /-- Pending events, in the order `SDL_PollEvent` hands them out. -/
  events : List SDL_Event
  /-- Value returned by `rand()`. -/
  rand : Nat

/-- The global variables of `chip8-system.c`. -/
@[ext] structure Machine where
  /-- Field `unsigned short opcode`. -/
  opcode : Nat
  /-- Field `unsigned char memory[MEMORYSIZE]`. -/
  memory : Nat → Nat
  /-- Field `unsigned char V[REGISTERCOUNT]`. -/
  V : Nat → Nat
  /-- Field `unsigned short I`. -/
  I : Nat
  /-- Field `unsigned short pc`. -/
  pc : Nat
  /-- Field `unsigned char gfx[SCREENX * SCREENY]`, indexed `y*SCREENX + x`. -/
  gfx : Nat → Nat
  /-- Field `unsigned char delay_timer`. -/
  delay_timer : Nat
  /-- Field `unsigned char sound_timer`. -/
  sound_timer : Nat
  /-- Field `double accumulator`, in exact milliseconds. -/
  accumulator : ℚ
  /-- Field `unsigned short stack[STACKSIZE]`. -/
  stack : Nat → Nat
  /-- Field `unsigned short sp`. -/
  sp : Nat
  /-- Field `unsigned char key[KEYPADSIZE]` (never read or written by the cycle). -/
  key : Nat → Nat

/-- What a call of `CHIP8_EMULATECYCLE` leaves behind: the returned `int`, the
globals, and the events still pending in the host queue. -/
structure Result where
  code : Nat
  state : Machine
  events : List SDL_Event

/-! ## C arithmetic and array access -/

/-- Conversion of an `int` value to `unsigned char`. -/
def u8 (i : Int) : Nat := (i % 256).toNat

/-- Conversion of an `int` value to `unsigned int` (32 bits). -/
def u32 (i : Int) : Nat := (i % 4294967296).toNat

/-- Read `a[i]` of an array with `size` elements. -/
def rd (size : Nat) (a : Nat → Nat) (i : Nat) : Option Nat :=
  if i < size then some (a i) else none

/-- The array `a` after the assignment `a[i] = v`. -/
def upd (a : Nat → Nat) (i v : Nat) : Nat → Nat := fun j => if j = i then v else a j

/-- Write `a[i] = v` into an array with `size` elements. -/
def wr (size : Nat) (a : Nat → Nat) (i v : Nat) : Option (Nat → Nat) :=
  if i < size then some (upd a i v) else none

/-- Effect of `memset(a, 0, count)` on an array of one-byte elements. -/
def memset0 (a : Nat → Nat) (count : Nat) : Nat → Nat :=
  fun i => if i < count then 0 else a i

/-! ## Timers (lines 143-166) -/

/-- `CHIP8_TIMERDECREMENT`: each timer goes down by one unless it is 0. -/
def CHIP8_TIMERDECREMENT (s : Machine) : Machine :=
  let s := if s.delay_timer > 0 then { s with delay_timer := s.delay_timer - 1 } else s
  if s.sound_timer > 0 then { s with sound_timer := s.sound_timer - 1 } else s

/-- The loop `while (accumulator > 1000/60.0) { accumulator -= 1000/60.0;
CHIP8_TIMERDECREMENT(); }`, with a bound on the number of iterations. The test
and the subtraction are exact here, where the C `double` rounds: the fields the
loop leaves alone are the program's, the number of iterations and the
accumulator are those of exact arithmetic only. -/
def timerLoop : Nat → Machine → Machine
  | 0, s => s
  | fuel + 1, s =>
    if s.accumulator > 1000 / 60 then
      timerLoop fuel (CHIP8_TIMERDECREMENT { s with accumulator := s.accumulator - 1000 / 60 })
    else s

/-- A number of iterations that the exact loop `timerLoop` never exceeds when
started with the accumulator at `acc` (see `timerFuel_enough` and
`timerLoop_spec`). -/
def timerFuel (acc : ℚ) : Nat := (Int.toNat ⌊acc * 60 / 1000⌋) + 1

/-- Lines 162-166: `accumulator += deltaTime;` followed by the loop, in exact
arithmetic (see `timerLoop`). -/
def timerAdvance (deltaTime : ℚ) (s : Machine) : Machine :=
  let s := { s with accumulator := s.accumulator + deltaTime }
  timerLoop (timerFuel s.accumulator) s

/-! ## Fetch and decode (lines 172-189) -/

/-- Line 180: `opcode = memory[pc] << 8 | memory[pc + 1]`, stored into an
`unsigned short`. -/
def fetch (s : Machine) : Option Nat :=
  match rd MEMORYSIZE s.memory s.pc, rd MEMORYSIZE s.memory (s.pc + 1) with
  | some hi, some lo => some ((hi <<< 8 ||| lo) % 65536)
  | _, _ => none

/-- The nibble `x = (opcode & 0x0F00) >> 8`. -/
def opX (op : Nat) : Nat := (op &&& 0x0F00) >>> 8

/-- The nibble `y = (opcode & 0x00F0) >> 4`. -/
def opY (op : Nat) : Nat := (op &&& 0x00F0) >>> 4

/-- The nibble `n = opcode & 0x000F`. -/
def opN (op : Nat) : Nat := op &&& 0x000F

/-- The address `nnn = opcode & 0x0FFF`. -/
def opNNN (op : Nat) : Nat := op &&& 0x0FFF

/-- The byte `kk = opcode & 0x00FF`. -/
def opKK (op : Nat) : Nat := op &&& 0x00FF

/-- Lines 549-553: `if (incPc) { pc += 2; } return 0;`. -/
def finish (incPc : Bool) (s : Machine) (events : List SDL_Event) : Option Result :=
  some ⟨0, if incPc then { s with pc := (s.pc + 2) % 65536 } else s, events⟩

/-- The statement `pc += 2;` of the skip instructions. -/
def skip (s : Machine) : Machine := { s with pc := (s.pc + 2) % 65536 }

/-- Assignment `V[i] = v`; the index is always a nibble or the constant `0xF`. -/
def setV (s : Machine) (i v : Nat) : Machine := { s with V := upd s.V i v }

/-! ## Family 0x0 (lines 195-222) -/

/-- Case `0x0000` of the inner switch: `memset(gfx, 0, SCREENX*SCREENY)`. -/
def op_clearScreen (s : Machine) (events : List SDL_Event) : Option Result :=
  finish true { s with gfx := memset0 s.gfx (SCREENX * SCREENY) } events

/-- Case `0x000E` of the inner switch (lines 204-217): `pc = stack[sp-1u];
stack[sp-1u] = 0;`, and only then the test `sp == 0`. The index `sp-1u` is
computed in `unsigned int`. -/
def op_return (s : Machine) (events : List SDL_Event) : Option Result :=
  match rd STACKSIZE s.stack (u32 ((s.sp : Int) - 1)) with
  | none => none
  | some top =>
    let s := { s with pc := top }
    match wr STACKSIZE s.stack (u32 ((s.sp : Int) - 1)) 0 with
    | none => none
    | some stack =>
      let s := { s with stack := stack }
      if s.sp = 0 then some ⟨2, s, events⟩
      else finish true { s with sp := s.sp - 1 } events

/-- The whole case `0x0000` of the outer switch, selected by `opcode & 0x000F`. -/
def family0 (op : Nat) (s : Machine) (events : List SDL_Event) : Option Result :=
  if op &&& 0x000F = 0x0000 then op_clearScreen s events
  else if op &&& 0x000F = 0x000E then op_return s events
  else finish true s events

/-! ## Jumps, calls and skips (lines 224-284, 373-393) -/

/-- Case `0x1000`: `pc = nnn; incPc = false;`. -/
def op_jump (op : Nat) (s : Machine) (events : List SDL_Event) : Option Result :=
  finish false { s with pc := opNNN op } events

/-- Case `0x2000` (lines 231-243): refuse when `sp == 15u`, else
`stack[sp] = pc; sp++; pc = nnn; incPc = false;`. -/
def op_call (op : Nat) (s : Machine) (events : List SDL_Event) : Option Result :=
  if s.sp = 15 then some ⟨2, s, events⟩
  else
    match wr STACKSIZE s.stack s.sp s.pc with
    | none => none
    | some stack =>
      finish false { s with stack := stack, sp := (s.sp + 1) % 65536, pc := opNNN op } events

/-- Case `0x3000`: skip when `V[x] == kk`. -/
def op_skipEqImm (op : Nat) (s : Machine) (events : List SDL_Event) : Option Result :=
  finish true (if s.V (opX op) = opKK op then skip s else s) events

/-- Case `0x4000`: skip when `V[x] != kk`. -/
def op_skipNeImm (op : Nat) (s : Machine) (events : List SDL_Event) : Option Result :=
  finish true (if s.V (opX op) ≠ opKK op then skip s else s) events

/-- Case `0x5000`: skip when `V[x] == V[y]`. -/
def op_skipEqReg (op : Nat) (s : Machine) (events : List SDL_Event) : Option Result :=
  finish true (if s.V (opX op) = s.V (opY op) then skip s else s) events

/-- Case `0x6000`: `V[x] = kk`. -/
def op_loadImm (op : Nat) (s : Machine) (events : List SDL_Event) : Option Result :=
  finish true (setV s (opX op) (opKK op)) events

/-- Case `0x7000`: `V[x] = V[x] + kk`. -/
def op_addImm (op : Nat) (s : Machine) (events : List SDL_Event) : Option Result :=
  finish true (setV s (opX op) ((s.V (opX op) + opKK op) % 256)) events

/-- Case `0x9000`: skip when `V[x] != V[y]`. -/
def op_skipNeReg (op : Nat) (s : Machine) (events : List SDL_Event) : Option Result :=
  finish true (if s.V (opX op) ≠ s.V (opY op) then skip s else s) events

/-- Case `0xA000`: `I = nnn`. -/
def op_setI (op : Nat) (s : Machine) (events : List SDL_Event) : Option Result :=
  finish true { s with I := opNNN op } events

/-- Case `0xB000`: `pc = (unsigned short)(nnn + (unsigned short)V[0]); incPc = false;`. -/
def op_jumpV0 (op : Nat) (s : Machine) (events : List SDL_Event) : Option Result :=
  finish false { s with pc := (opNNN op + s.V 0) % 65536 } events

/-- Case `0xC000`: `V[x] = (rand() % 0x100) & kk`. -/
def op_random (h : Host) (op : Nat) (s : Machine) (events : List SDL_Event) : Option Result :=
  finish true (setV s (opX op) ((h.rand % 0x100) &&& opKK op)) events

/-! ## Family 0x8 (lines 286-371) -/

/-- Case `0x0004` (lines 318-328): the carry goes to `V[0xF]` first, then
`V[x] = V[x] + V[y]` reads the registers again. -/
def op_addReg (op : Nat) (s : Machine) : Machine :=
  let s := if s.V (opX op) + s.V (opY op) > 0xFF then setV s 0xF 1 else setV s 0xF 0
  setV s (opX op) ((s.V (opX op) + s.V (opY op)) % 256)

/-- Case `0x0005` (lines 330-340): `V[0xF] = (V[x] > V[y])`, then
`V[x] = V[x] - V[y]`. -/
def op_subReg (op : Nat) (s : Machine) : Machine :=
  let s := if s.V (opX op) > s.V (opY op) then setV s 0xF 1 else setV s 0xF 0
  setV s (opX op) (u8 ((s.V (opX op) : Int) - (s.V (opY op) : Int)))

/-- Case `0x0006`: `V[0xF] = V[x] & 0x1; V[x] = V[x] >> 1;`. -/
def op_shr (op : Nat) (s : Machine) : Machine :=
  let s := setV s 0xF (s.V (opX op) &&& 0x1)
  setV s (opX op) (s.V (opX op) >>> 1)

/-- Case `0x0007`: `V[0xF] = (V[y] > V[x])`, then `V[x] = V[y] - V[x]`. -/
def op_subnReg (op : Nat) (s : Machine) : Machine :=
  let s := if s.V (opY op) > s.V (opX op) then setV s 0xF 1 else setV s 0xF 0
  setV s (opX op) (u8 ((s.V (opY op) : Int) - (s.V (opX op) : Int)))

/-- Case `0x000E` (lines 361-366): `V[0xF] = V[x] & 0x80; V[x] = V[x] << 1;`. -/
def op_shl (op : Nat) (s : Machine) : Machine :=
  let s := setV s 0xF (s.V (opX op) &&& 0x80)
  setV s (opX op) ((s.V (opX op) <<< 1) % 256)

/-- The whole case `0x8000` of the outer switch, selected by `opcode & 0x000F`. -/
def family8 (op : Nat) (s : Machine) (events : List SDL_Event) : Option Result :=
  if op &&& 0x000F = 0x0000 then finish true (setV s (opX op) (s.V (opY op))) events
  else if op &&& 0x000F = 0x0001 then
    finish true (setV s (opX op) (s.V (opX op) ||| s.V (opY op))) events
  else if op &&& 0x000F = 0x0002 then
    finish true (setV s (opX op) (s.V (opX op) &&& s.V (opY op))) events
  else if op &&& 0x000F = 0x0003 then
    finish true (setV s (opX op) (s.V (opX op) ^^^ s.V (opY op))) events
  else if op &&& 0x000F = 0x0004 then finish true (op_addReg op s) events
  else if op &&& 0x000F = 0x0005 then finish true (op_subReg op s) events
  else if op &&& 0x000F = 0x0006 then finish true (op_shr op s) events
  else if op &&& 0x000F = 0x0007 then finish true (op_subnReg op s) events
  else if op &&& 0x000F = 0x000E then finish true (op_shl op s) events
  else finish true s events

/-! ## Sprite drawing (lines 403-428) -/

/-- The sprite bit `(memory[I+i/8] & (1 << (7-curr_bit))) >> (7-curr_bit)` taken
from the byte `b`, for `curr_bit = i % 8`. -/
def spriteBit (b i : Nat) : Nat := (b &&& (1 <<< (7 - i % 8))) >>> (7 - i % 8)

/-- The `gfx` index `curr_y*SCREENX + curr_x` addressed by iteration `i` of the
draw loop when `V[x] = vx` and `V[y] = vy`. -/
def drawIndex (vx vy i : Nat) : Nat := (vy + i / 8) * SCREENX + (vx + i % 8)

/-- The loop `for (int i = 0; i < 8*n; i++)` of the draw instruction; the first
argument counts the iterations still to run, the second is `i`. Every iteration
reads `V[x]`, `V[y]`, `I` afresh, indexes `gfx` at `curr_y*SCREENX + curr_x`
without any reduction of the coordinates, raises `V[0xF]` on a collision and
stores `curr_pixel ^ curr_memory`. -/
def drawLoop (x y : Nat) : Nat → Nat → Machine → Option Machine
  | 0, _, s => some s
  | rem + 1, i, s =>
    let curr_x := s.V x + i % 8
    let curr_y := s.V y + i / 8
    match rd (SCREENX * SCREENY) s.gfx (curr_y * SCREENX + curr_x),
          rd MEMORYSIZE s.memory (s.I + i / 8) with
    | some curr_pixel, some b =>
      let curr_memory := spriteBit b i
      let s := if curr_pixel = 1 ∧ curr_memory = 1 then setV s 0xF 1 else s
      match wr (SCREENX * SCREENY) s.gfx (curr_y * SCREENX + curr_x)
              (curr_pixel ^^^ curr_memory) with
      | some gfx => drawLoop x y rem (i + 1) { s with gfx := gfx }
      | none => none
    | _, _ => none

/-- Case `0xD000`: `V[0xF] = 0;` and then the loop over the `8*n` sprite bits. -/
def op_draw (op : Nat) (s : Machine) (events : List SDL_Event) : Option Result :=
  match drawLoop (opX op) (opY op) (8 * opN op) 0 (setV s 0xF 0) with
  | some s => finish true s events
  | none => none

/-! ## Family 0xE (lines 430-452) -/

/-- The test `keyboardState[keybinds[V[x]]]` of both key-query instructions. -/
def keyDown (h : Host) (op : Nat) (s : Machine) : Option Bool :=
  match rd 16 (fun i => keybinds.getD i 0) (s.V (opX op)) with
  | some scancode => some (h.keyboardState scancode ≠ 0)
  | none => none

/-- The whole case `0xE000` of the outer switch, selected by `opcode & 0x00FF`. -/
def familyE (h : Host) (op : Nat) (s : Machine) (events : List SDL_Event) : Option Result :=
  if op &&& 0x00FF = 0x009E then
    match keyDown h op s with
    | some down => finish true (if down then skip s else s) events
    | none => none
  else if op &&& 0x00FF = 0x00A1 then
    match keyDown h op s with
    | some down => finish true (if !down then skip s else s) events
    | none => none
  else finish true s events

/-! ## Family 0xF (lines 454-542) -/

/-- The loop `for (int i = 0; i < 16; i++)` of the key wait (lines 469-477): the
first `i` with `ev.key.keysym.scancode == keybinds[i]` is stored in `V[x]` and
ends the loop. The first argument counts the iterations still to run. -/
def scanKeys (scancode x : Nat) : Nat → Nat → Machine → Bool × Machine
  | 0, _, s => (false, s)
  | rem + 1, i, s =>
    if scancode = keybinds.getD i 0 then (true, setV s x i)
    else scanKeys scancode x rem (i + 1) s

/-- The loop `while (SDL_PollEvent(&ev) != 0)` of the key wait (lines 467-482):
events are taken from the queue until a key-down event with a bound scancode is
found. Returns `found`, the globals and the events still pending. -/
def pollKeys (x : Nat) : List SDL_Event → Machine → Bool × Machine × List SDL_Event
  | [], s => (false, s, [])
  | ev :: rest, s =>
    if ev.type = SDL_KEYDOWN then
      match scanKeys ev.scancode x 16 0 s with
      | (true, s1) => (true, s1, rest)
      | (false, s1) => pollKeys x rest s1
    else pollKeys x rest s

/-- Case `0x000A` (lines 463-488): `incPc` is `found`. -/
def op_waitKey (op : Nat) (s : Machine) (events : List SDL_Event) : Option Result :=
  match pollKeys (opX op) events s with
  | (found, s1, rest) => finish found s1 rest

/-- Case `0x0033` (lines 514-521): hundreds, tens and units of `V[x]` go to
`memory[I]`, `memory[I + 1]`, `memory[I + 2]`. -/
def op_bcd (op : Nat) (s : Machine) (events : List SDL_Event) : Option Result :=
  match wr MEMORYSIZE s.memory s.I (s.V (opX op) / 100) with
  | none => none
  | some m0 =>
    match wr MEMORYSIZE m0 (s.I + 1) ((s.V (opX op) / 10) % 10) with
    | none => none
    | some m1 =>
      match wr MEMORYSIZE m1 (s.I + 2) (s.V (opX op) % 10) with
      | none => none
      | some m2 => finish true { s with memory := m2 } events

/-- The loop `for (int reg = 0; reg <= x; reg++) memory[I + reg] = V[reg];`; the
first argument counts the iterations still to run, the second is `reg`. -/
def storeLoop : Nat → Nat → Machine → Option Machine
  | 0, _, s => some s
  | rem + 1, reg, s =>
    match wr MEMORYSIZE s.memory (s.I + reg) (s.V reg) with
    | some m => storeLoop rem (reg + 1) { s with memory := m }
    | none => none

/-- The loop `for (int reg = 0; reg <= x; reg++) V[reg] = memory[I + reg];`; the
first argument counts the iterations still to run, the second is `reg`. -/
def loadLoop : Nat → Nat → Machine → Option Machine
  | 0, _, s => some s
  | rem + 1, reg, s =>
    match rd MEMORYSIZE s.memory (s.I + reg) with
    | some b => loadLoop rem (reg + 1) (setV s reg b)
    | none => none

/-- The whole case `0xF000` of the outer switch, selected by `opcode & 0x00FF`. -/
def familyF (op : Nat) (s : Machine) (events : List SDL_Event) : Option Result :=
  if op &&& 0x00FF = 0x0007 then finish true (setV s (opX op) s.delay_timer) events
  else if op &&& 0x00FF = 0x000A then op_waitKey op s events
  else if op &&& 0x00FF = 0x0015 then
    finish true { s with delay_timer := s.V (opX op) } events
  else if op &&& 0x00FF = 0x0018 then
    finish true { s with sound_timer := s.V (opX op) } events
  else if op &&& 0x00FF = 0x001E then
    finish true { s with I := (s.I + s.V (opX op)) % 65536 } events
  else if op &&& 0x00FF = 0x0029 then
    finish true { s with I := (0x0000 + s.V (opX op) * 5) % 65536 } events
  else if op &&& 0x00FF = 0x0033 then op_bcd op s events
  else if op &&& 0x00FF = 0x0055 then
    match storeLoop (opX op + 1) 0 s with
    | some s1 => finish true s1 events
    | none => none
  else if op &&& 0x00FF = 0x0065 then
    match loadLoop (opX op + 1) 0 s with
    | some s1 => finish true s1 events
    | none => none
  else finish true s events

/-! ## The cycle (lines 154-554) -/

/-- The outer `switch(opcode & 0xF000)`. -/
def execute (h : Host) (op : Nat) (s : Machine) : Option Result :=
  if op &&& 0xF000 = 0x0000 then family0 op s h.events
  else if op &&& 0xF000 = 0x1000 then op_jump op s h.events
  else if op &&& 0xF000 = 0x2000 then op_call op s h.events
  else if op &&& 0xF000 = 0x3000 then op_skipEqImm op s h.events
  else if op &&& 0xF000 = 0x4000 then op_skipNeImm op s h.events
  else if op &&& 0xF000 = 0x5000 then op_skipEqReg op s h.events
  else if op &&& 0xF000 = 0x6000 then op_loadImm op s h.events
  else if op &&& 0xF000 = 0x7000 then op_addImm op s h.events
  else if op &&& 0xF000 = 0x8000 then family8 op s h.events
  else if op &&& 0xF000 = 0x9000 then op_skipNeReg op s h.events
  else if op &&& 0xF000 = 0xA000 then op_setI op s h.events
  else if op &&& 0xF000 = 0xB000 then op_jumpV0 op s h.events
  else if op &&& 0xF000 = 0xC000 then op_random h op s h.events
  else if op &&& 0xF000 = 0xD000 then op_draw op s h.events
  else if op &&& 0xF000 = 0xE000 then familyE h op s h.events
  else if op &&& 0xF000 = 0xF000 then familyF op s h.events
  else finish true s h.events

/-- `CHIP8_EMULATECYCLE(deltaTime)`: advance the timers, fetch the opcode at
`pc`, return 1 on the zero word, otherwise run the instruction. The result is
`none` when an array is accessed outside its bounds. -/
def CHIP8_EMULATECYCLE (h : Host) (deltaTime : ℚ) (s : Machine) : Option Result :=
  let s := timerAdvance deltaTime s
  match fetch s with
  | none => none
  | some op =>
    let s := { s with opcode := op }
    if op = 0 then some ⟨1, s, h.events⟩ else execute h op s

/-- The host loop of `main.c` over a finite list of frames, each with its own
host snapshot and elapsed time: it keeps calling `CHIP8_EMULATECYCLE` while the
returned code is 0 and stops at the first non-zero code. Returns the last code
and the globals. -/
def cycles : List (Host × ℚ) → Machine → Option (Nat × Machine)
  | [], s => some (0, s)
  | (h, deltaTime) :: rest, s =>
    match CHIP8_EMULATECYCLE h deltaTime s with
    | some r => if r.code = 0 then cycles rest r.state else some (r.code, r.state)
    | none => none

/-! ## Initialisation (lines 66-141) -/

/-- Size of the font table (`#define FONTSETSIZE 80`). -/
def FONTSETSIZE : Nat := 80

/-- The table `chip8_fontset[FONTSETSIZE]`: five bytes per hexadecimal digit. -/
def chip8_fontset : List Nat :=
  [0xF0, 0x90, 0x90, 0x90, 0xF0,
   0x20, 0x60, 0x20, 0x20, 0x70,
   0xF0, 0x10, 0xF0, 0x80, 0xF0,
   0xF0, 0x10, 0xF0, 0x10, 0xF0,
   0x90, 0x90, 0xF0, 0x10, 0x10,
   0xF0, 0x80, 0xF0, 0x10, 0xF0,
   0xF0, 0x80, 0xF0, 0x90, 0xF0,
   0xF0, 0x10, 0x20, 0x40, 0x40,
   0xF0, 0x90, 0xF0, 0x90, 0xF0,
   0xF0, 0x90, 0xF0, 0x10, 0xF0,
   0xF0, 0x90, 0xF0, 0x90, 0x90,
   0xE0, 0x90, 0xE0, 0x90, 0xE0,
   0xF0, 0x80, 0x80, 0x80, 0xF0,
   0xE0, 0x90, 0x90, 0x90, 0xE0,
   0xF0, 0x80, 0xF0, 0x80, 0xF0,
   0xF0, 0x80, 0xF0, 0x80, 0x80]

/-- Effect of `memset(a, 0, count)` on an array whose elements are `width` bytes
wide: the byte count covers the first `count / width` elements. -/
def memsetWide (a : Nat → Nat) (width count : Nat) : Nat → Nat :=
  fun i => if i < count / width then 0 else a i

/-- Bytes stored one after the other from index `i` on into an array of `size`
one-byte elements; `none` as soon as a byte falls outside the array. -/
def storeBytes (size : Nat) : List Nat → Nat → (Nat → Nat) → Option (Nat → Nat)
  | [], _, a => some a
  | b :: rest, i, a =>
    match wr size a i b with
    | some a1 => storeBytes size rest (i + 1) a1
    | none => none

/-- `CHIP8_INITIALIZE()`, with the program file as an input: `none` when
`fopen` fails, else the bytes of the file. The globals are reset in the order of
the source; `memset(stack, 0, STACKSIZE)` passes the element count of an array
of two-byte elements as the byte count; `memcpy` stores the `FONTSETSIZE` font
bytes from `memory[0]` on; `fread(memory+0x200, 1, 3896, progFile)` stores the
first (at most 3896) bytes of the file from `memory[0x200]` on, without any
test on the file size. The `accumulator` and `key` are not touched. Returns the
`int` result and the globals; `none` when `memory` is written outside its
bounds. -/
def CHIP8_INITIALIZE (progFile : Option (List Nat)) (s : Machine) : Option (Nat × Machine) :=
  let s := { s with pc := 0x200, opcode := 0, I := 0, sp := 0 }
  let s := { s with gfx := memset0 s.gfx (SCREENX * SCREENY) }
  let s := { s with stack := memsetWide s.stack 2 STACKSIZE }
  let s := { s with V := memset0 s.V REGISTERCOUNT }
  let s := { s with memory := memset0 s.memory MEMORYSIZE }
  match storeBytes MEMORYSIZE (chip8_fontset.take FONTSETSIZE) 0 s.memory with
  | none => none
  | some withFont =>
    let s := { s with memory := withFont, delay_timer := 0, sound_timer := 0 }
    match progFile with
    | none => some (1, s)
    | some image =>
      match storeBytes MEMORYSIZE (image.take 3896) 0x200 s.memory with
      | some loaded => some (0, { s with memory := loaded })
      | none => none

/-! ## Concrete inputs -/

/-- A host with no key held, no pending event and `rand()` returning 0. -/
def idleHost : Host := ⟨fun _ => 0, [], 0⟩

/-- Memory holding the given bytes from address `0x200` on, zero elsewhere. -/
def program (bytes : List Nat) : Nat → Nat :=
  fun a => if 0x200 ≤ a then bytes.getD (a - 0x200) 0 else 0

/-- An array holding the given values from index 0 on, zero elsewhere. -/
def cells (vals : List Nat) : Nat → Nat := fun i => vals.getD i 0

/-- All globals zero except `pc = 0x200`. -/
def blank : Machine :=
  { opcode := 0, memory := fun _ => 0, V := fun _ => 0, I := 0, pc := 0x200,
    gfx := fun _ => 0, delay_timer := 0, sound_timer := 0, accumulator := 0,
    stack := fun _ => 0, sp := 0, key := fun _ => 0 }

/-- The instruction `D011` at `0x200` followed by the one-row sprite `FF`, with
`I` on the sprite, `V0 = 60`, `V1 = 0` and a blank screen. -/
def edgeSprite : Machine :=
  { blank with memory := program [0xD0, 0x11, 0xFF], V := cells [60, 0], I := 0x202 }

/-- The instruction `D014` at `0x200` followed by the four-row sprite
`FF FF FF FF`, with `I` on the sprite, `V0 = 60`, `V1 = 30` and a blank screen. -/
def cornerSprite : Machine :=
  { blank with memory := program [0xD0, 0x14, 0xFF, 0xFF, 0xFF, 0xFF], V := cells [60, 30],
               I := 0x202 }

/-- The instruction `D012` twice from `0x200`, followed by the two-row sprite
`FF 81`, with `I` on the sprite, `V0 = 10`, `V1 = 5` and a blank screen. -/
def innerSprite : Machine :=
  { blank with memory := program [0xD0, 0x12, 0xD0, 0x12, 0xFF, 0x81], V := cells [10, 5],
               I := 0x204 }

/-- The instruction `F333` at `0x200`, with `V3 = 234` and `I = 0x300`. -/
def bcdDemo : Machine :=
  { blank with memory := program [0xF3, 0x33], V := cells [0, 0, 0, 234], I := 0x300 }

/-- The instruction `F30A` at `0x200`. -/
def waitKey : Machine := { blank with memory := program [0xF3, 0x0A] }

/-- A host whose queue holds a key-up of `X`, a key-down of an unbound key
(scancode 99), a key-down of `W` (`keybinds[5]`) and a key-down of `X`. -/
def keyHost : Host :=
  ⟨fun _ => 0, [⟨0x301, 27⟩, ⟨SDL_KEYDOWN, 99⟩, ⟨SDL_KEYDOWN, 26⟩, ⟨SDL_KEYDOWN, 27⟩], 0⟩

/-- Globals left behind by an earlier program: nine nested calls, every stack
entry holding the return address `0x234`. -/
def usedStack : Machine := { blank with stack := fun _ => 0x234, sp := 9 }

/-- The word `0010` at `0x200` (family `0x0`, neither `00E0` nor `00EE`), with
the pixel `gfx[0]` set. -/
def strayClear : Machine := { blank with memory := program [0x00, 0x10], gfx := cells [1] }

/-- The instruction `81F4` at `0x200`, with `V1 = 10` and `VF = 100`. -/
def addVF : Machine :=
  { blank with memory := program [0x81, 0xF4],
               V := cells [0, 10, 0, 0, 0, 0, 0, 0, 0, 0, 0, 0, 0, 0, 0, 100] }

/-- The instruction `2204` at `0x200` (call `0x204`) and `00EE` at `0x204`. -/
def callReturn : Machine := { blank with memory := program [0x22, 0x04, 0x00, 0x00, 0x00, 0xEE] }

/-- The instructions `F255` and `F265` from `0x200`, with `V0..V3 = 11, 22, 33,
44` and `I = 0x300`. -/
def blockDemo : Machine :=
  { blank with memory := program [0xF2, 0x55, 0xF2, 0x65], V := cells [11, 22, 33, 44],
               I := 0x300 }

/-- A program in which every word is `2222` (call `0x222`): each call lands
on another call. Starts with `sp = 0` at `pc = 0x200`. -/
def callChain : Machine := { blank with memory := fun _ => 0x22 }

end Chip8Emu

namespace Chip8Emu

/-! ## Array updates -/

theorem upd_same (a : Nat → Nat) (i v : Nat) : upd a i v i = v := by
  simp [upd]

theorem upd_ne {a : Nat → Nat} {i j : Nat} (h : j ≠ i) (v : Nat) : upd a i v j = a j := by
  simp [upd, h]

theorem upd_idem (a : Nat → Nat) (i v w : Nat) : upd (upd a i v) i w = upd a i w := by
  funext j; by_cases h : j = i <;> simp [upd, h]

theorem upd_self (a : Nat → Nat) (i : Nat) : upd a i (a i) = a := by
  funext j; by_cases h : j = i <;> simp [upd, h]

theorem rd_of_lt {size : Nat} {a : Nat → Nat} {i : Nat} (hi : i < size) :
    rd size a i = some (a i) := by
  simp [rd, hi]

theorem wr_of_lt {size : Nat} {a : Nat → Nat} {i v : Nat} (hi : i < size) :
    wr size a i v = some (upd a i v) := by
  simp [wr, hi]

/-! ## Bit masks as division and remainder -/

theorem and_F000 (x : Nat) : x &&& 0xF000 = (x / 4096 % 16) * 4096 := by
  have h1 : (0xF000 : Nat) = (2^4 - 1) <<< 12 := by decide
  have h2 : (x / 4096 % 16) * 4096 = ((x >>> 12) % 2^4) <<< 12 := by
    rw [Nat.shiftLeft_eq, Nat.shiftRight_eq_div_pow]; norm_num
  rw [h1, h2]
  apply Nat.eq_of_testBit_eq
  intro i
  simp only [Nat.testBit_and, Nat.testBit_shiftLeft, Nat.testBit_two_pow_sub_one,
    Nat.testBit_mod_two_pow, Nat.testBit_shiftRight]
  by_cases h : 12 ≤ i
  · have : 12 + (i - 12) = i := by omega
    simp [h, this, Bool.and_comm]
  · simp [h]

theorem opX_eq (x : Nat) : opX x = x / 256 % 16 := by
  have h1 : (0x0F00 : Nat) = (2^4 - 1) <<< 8 := by decide
  have h2 : x / 256 % 16 = (x >>> 8) % 2^4 := by
    rw [Nat.shiftRight_eq_div_pow]; norm_num
  unfold opX
  rw [h1, h2]
  apply Nat.eq_of_testBit_eq
  intro i
  simp only [Nat.testBit_and, Nat.testBit_shiftLeft, Nat.testBit_two_pow_sub_one,
    Nat.testBit_mod_two_pow, Nat.testBit_shiftRight]
  simp [Bool.and_comm]

theorem opY_eq (x : Nat) : opY x = x / 16 % 16 := by
  have h1 : (0x00F0 : Nat) = (2^4 - 1) <<< 4 := by decide
  have h2 : x / 16 % 16 = (x >>> 4) % 2^4 := by
    rw [Nat.shiftRight_eq_div_pow]; norm_num
  unfold opY
  rw [h1, h2]
  apply Nat.eq_of_testBit_eq
  intro i
  simp only [Nat.testBit_and, Nat.testBit_shiftLeft, Nat.testBit_two_pow_sub_one,
    Nat.testBit_mod_two_pow, Nat.testBit_shiftRight]
  simp [Bool.and_comm]

theorem and_000F (x : Nat) : x &&& 0x000F = x % 16 := by
  have : (0x000F : Nat) = 2^4 - 1 := by decide
  rw [this, Nat.and_pow_two_sub_one_eq_mod]

theorem and_00FF (x : Nat) : x &&& 0x00FF = x % 256 := by
  have : (0x00FF : Nat) = 2^8 - 1 := by decide
  rw [this, Nat.and_pow_two_sub_one_eq_mod]

theorem opNNN_eq (x : Nat) : opNNN x = x % 4096 := by
  have : (0x0FFF : Nat) = 2^12 - 1 := by decide
  unfold opNNN
  rw [this, Nat.and_pow_two_sub_one_eq_mod]

theorem opN_eq (x : Nat) : opN x = x % 16 := and_000F x

theorem opKK_eq (x : Nat) : opKK x = x % 256 := and_00FF x

theorem spriteBit_eq (b i : Nat) : spriteBit b i = b / 2 ^ (7 - i % 8) % 2 := by
  have h2 : b / 2 ^ (7 - i % 8) % 2 = (b >>> (7 - i % 8)) % 2^1 := by
    rw [Nat.shiftRight_eq_div_pow]; norm_num
  unfold spriteBit
  rw [h2]
  apply Nat.eq_of_testBit_eq
  intro j
  simp only [Nat.testBit_and, Nat.testBit_shiftLeft,
    Nat.testBit_mod_two_pow, Nat.testBit_shiftRight]
  by_cases h : j = 0
  · subst h; simp
  · have h1 : ¬ j < 1 := by omega
    have h3 : Nat.testBit 1 j = false := by
      have := @Nat.testBit_two_pow 0 j
      simp at this; simp [this]; omega
    simp [h1, h3]

/-! ## The timer phase -/

theorem timerDecrement_eq (s : Machine) :
    CHIP8_TIMERDECREMENT s =
      { s with delay_timer := s.delay_timer - 1, sound_timer := s.sound_timer - 1 } := by
  unfold CHIP8_TIMERDECREMENT
  by_cases h1 : s.delay_timer > 0 <;> by_cases h2 : s.sound_timer > 0 <;>
    simp only [h1, h2, if_true, if_false] <;> apply Machine.ext <;> simp only <;> omega

/-- The exact loop leaves through its test, not through the iteration bound:
with `k` the number of iterations run, the accumulator ends at most one quantum,
and strictly positive when at least one iteration ran. -/
theorem timerLoop_spec (fuel : Nat) : ∀ s : Machine,
    s.accumulator ≤ ((fuel : ℚ) + 1) * (1000 / 60) →
    ∃ k : Nat, k ≤ fuel ∧
      timerLoop fuel s =
        { s with accumulator := s.accumulator - k * (1000 / 60),
                 delay_timer := s.delay_timer - k,
                 sound_timer := s.sound_timer - k } ∧
      s.accumulator - k * (1000 / 60) ≤ 1000 / 60 ∧
      (0 < k → 0 < s.accumulator - k * (1000 / 60)) ∧
      (k = 0 ↔ s.accumulator ≤ 1000 / 60) := by
  induction fuel with
  | zero =>
    intro s hs
    refine ⟨0, le_refl _, ?_, ?_, ?_, ?_⟩
    · apply Machine.ext <;> simp [timerLoop]
    · simpa using hs
    · intro h; omega
    · simpa using hs
  | succ n ih =>
    intro s hs
    by_cases hgt : s.accumulator > 1000 / 60
    · have hs' : (CHIP8_TIMERDECREMENT
          { s with accumulator := s.accumulator - 1000 / 60 }).accumulator
            ≤ ((n : ℚ) + 1) * (1000 / 60) := by
        rw [timerDecrement_eq]
        push_cast at hs
        simp only
        linarith
      obtain ⟨k, hk, heq, hle, hpos, _⟩ := ih _ hs'
      rw [timerDecrement_eq] at heq hle hpos
      simp only at heq hle hpos
      refine ⟨k + 1, by omega, ?_, ?_, ?_, ?_⟩
      · rw [timerLoop, if_pos hgt, timerDecrement_eq]
        refine heq.trans ?_
        apply Machine.ext <;> simp only <;> first | rfl | omega | skip
        push_cast; ring
      · push_cast; linarith
      · intro _
        rcases Nat.eq_zero_or_pos k with h0 | h0
        · subst h0; push_cast; simp only [zero_add, one_mul]; linarith
        · have := hpos h0; push_cast; linarith
      · constructor
        · intro h; omega
        · intro h; linarith
    · refine ⟨0, by omega, ?_, ?_, ?_, ?_⟩
      · rw [timerLoop, if_neg hgt]; apply Machine.ext <;> simp
      · simp only [Nat.cast_zero, zero_mul, sub_zero]; linarith
      · intro h; omega
      · simp only [true_iff]; linarith

theorem timerFuel_enough (acc : ℚ) :
    acc ≤ ((timerFuel acc : ℕ) + 1 : ℚ) * (1000 / 60) := by
  unfold timerFuel
  have h1 : acc * 60 / 1000 < (⌊acc * 60 / 1000⌋ : ℚ) + 1 := Int.lt_floor_add_one _
  have h2 : (⌊acc * 60 / 1000⌋ : ℤ) ≤ ((Int.toNat ⌊acc * 60 / 1000⌋ : ℕ) : ℤ) :=
    Int.self_le_toNat _
  have h3 : (⌊acc * 60 / 1000⌋ : ℚ) ≤ ((Int.toNat ⌊acc * 60 / 1000⌋ : ℕ) : ℚ) := by
    exact_mod_cast h2
  have h4 : acc * 60 / 1000 < ((Int.toNat ⌊acc * 60 / 1000⌋ : ℕ) : ℚ) + 1 := by linarith
  generalize ((Int.toNat ⌊acc * 60 / 1000⌋ : ℕ) : ℚ) = N at h4
  push_cast
  have h5 : acc * 60 / 1000 * (1000 / 60) < (N + 1) * (1000 / 60) :=
    mul_lt_mul_of_pos_right h4 (by norm_num)
  have h6 : acc * 60 / 1000 * (1000 / 60) = acc := by ring
  linarith

/-- The timer phase of one cycle in exact arithmetic: `k` quanta are taken off
the accumulator and off each timer (stopping at 0); nothing else changes. -/
theorem timerAdvance_spec (dt : ℚ) (s : Machine) :
    ∃ k : Nat,
      timerAdvance dt s =
        { s with accumulator := s.accumulator + dt - k * (1000 / 60),
                 delay_timer := s.delay_timer - k,
                 sound_timer := s.sound_timer - k } ∧
      s.accumulator + dt - k * (1000 / 60) ≤ 1000 / 60 ∧
      (0 < k → 0 < s.accumulator + dt - k * (1000 / 60)) ∧
      (k = 0 ↔ s.accumulator + dt ≤ 1000 / 60) := by
  obtain ⟨k, _, heq, hle, hpos, hz⟩ :=
    timerLoop_spec (timerFuel (s.accumulator + dt))
      { s with accumulator := s.accumulator + dt } (timerFuel_enough _)
  exact ⟨k, by simpa [timerAdvance] using heq, hle, hpos, hz⟩

/-- The loop writes only the accumulator and the two timers, whatever the
number of iterations it runs and whatever the values the accumulator takes. -/
theorem timerLoop_frame (fuel : Nat) : ∀ s : Machine,
    (timerLoop fuel s).memory = s.memory ∧ (timerLoop fuel s).pc = s.pc ∧
    (timerLoop fuel s).V = s.V ∧ (timerLoop fuel s).I = s.I ∧
    (timerLoop fuel s).gfx = s.gfx ∧ (timerLoop fuel s).stack = s.stack ∧
    (timerLoop fuel s).sp = s.sp ∧ (timerLoop fuel s).key = s.key ∧
    (timerLoop fuel s).opcode = s.opcode := by
  induction fuel with
  | zero => intro s; simp [timerLoop]
  | succ n ih =>
    intro s
    rw [timerLoop]
    split
    · have h := ih (CHIP8_TIMERDECREMENT { s with accumulator := s.accumulator - 1000 / 60 })
      rw [timerDecrement_eq] at h
      rw [timerDecrement_eq]
      exact h
    · simp

/-- The timer phase of a cycle writes only the accumulator and the two timers.
This is all that the results about instructions use of the timer phase; it does
not depend on the arithmetic of the accumulator. -/
theorem timerAdvance_frame (dt : ℚ) (s : Machine) :
    (timerAdvance dt s).memory = s.memory ∧ (timerAdvance dt s).pc = s.pc ∧
    (timerAdvance dt s).V = s.V ∧ (timerAdvance dt s).I = s.I ∧
    (timerAdvance dt s).gfx = s.gfx ∧ (timerAdvance dt s).stack = s.stack ∧
    (timerAdvance dt s).sp = s.sp ∧ (timerAdvance dt s).key = s.key ∧
    (timerAdvance dt s).opcode = s.opcode := by
  unfold timerAdvance
  exact timerLoop_frame _ _

/-! ## Fetch and dispatch -/

theorem fetch_timerAdvance (dt : ℚ) (s : Machine) : fetch (timerAdvance dt s) = fetch s := by
  obtain ⟨hm, hp, _⟩ := timerAdvance_frame dt s
  simp only [fetch, hm, hp]

theorem fetch_bound {s : Machine} {op : Nat} (hf : fetch s = some op) :
    s.pc + 1 < 4096 := by
  unfold fetch rd MEMORYSIZE at hf
  by_cases h : s.pc + 1 < 4096
  · exact h
  · simp [h] at hf

/-- A cycle whose fetched word is not zero runs the outer switch on the state
left by the timer phase. -/
theorem cycle_eq (h : Host) (dt : ℚ) {s : Machine} {op : Nat}
    (hf : fetch s = some op) (h0 : op ≠ 0) :
    CHIP8_EMULATECYCLE h dt s = execute h op { timerAdvance dt s with opcode := op } := by
  have hf' := fetch_timerAdvance dt s
  rw [hf] at hf'
  simp only [CHIP8_EMULATECYCLE, hf', if_neg h0]

theorem cycle_family8 (h : Host) (dt : ℚ) {s : Machine} {op : Nat}
    (hf : fetch s = some op) (h8 : op &&& 0xF000 = 0x8000) :
    CHIP8_EMULATECYCLE h dt s =
      family8 op { timerAdvance dt s with opcode := op } h.events := by
  have h0 : op ≠ 0 := by rintro rfl; simp at h8
  rw [cycle_eq h dt hf h0]
  simp [execute, h8]

/-- Decoding of a word given by its four nibbles. -/
theorem decode_nibbles (a b c d : Nat) (ha : a < 16) (hb : b < 16) (hc : c < 16)
    (hd : d < 16) :
    (a * 4096 + b * 256 + c * 16 + d) &&& 0xF000 = a * 4096 ∧
    opX (a * 4096 + b * 256 + c * 16 + d) = b ∧
    opY (a * 4096 + b * 256 + c * 16 + d) = c ∧
    opN (a * 4096 + b * 256 + c * 16 + d) = d ∧
    (a * 4096 + b * 256 + c * 16 + d) &&& 0x000F = d ∧
    (a * 4096 + b * 256 + c * 16 + d) &&& 0x00FF = c * 16 + d ∧
    opNNN (a * 4096 + b * 256 + c * 16 + d) = b * 256 + c * 16 + d ∧
    opKK (a * 4096 + b * 256 + c * 16 + d) = c * 16 + d := by
  rw [and_F000, opX_eq, opY_eq, opN_eq, and_000F, and_00FF, opNNN_eq, opKK_eq]
  refine ⟨?_, ?_, ?_, ?_, ?_, ?_, ?_, ?_⟩ <;> omega

/-! ## Register arithmetic (claims C1, C2, C3) -/

/-- C1: when the opcode at `pc` is `8XY4` with `X`, `Y` in `0..14`, and `a`, `b`
are the values of `VX`, `VY` before the step, one cycle returns 0, leaves
`VF = 1` if `a + b > 255` and `VF = 0` otherwise, `VX = (a + b) mod 256`, and
`pc` advanced by 2. -/
theorem C1_add_sets_carry (h : Host) (dt : ℚ) (s : Machine) (X Y : Nat)
    (hX : X ≤ 14) (hY : Y ≤ 14)
    (hop : fetch s = some (0x8004 + 0x100 * X + 0x10 * Y)) :
    ∃ r, CHIP8_EMULATECYCLE h dt s = some r ∧ r.code = 0 ∧
      r.state.V 0xF = (if s.V X + s.V Y > 255 then 1 else 0) ∧
      r.state.V X = (s.V X + s.V Y) % 256 ∧
      r.state.pc = s.pc + 2 := by
  obtain ⟨h1, h2, h3, -, h5, -⟩ := decode_nibbles 8 X Y 4 (by omega) (by omega) (by omega)
    (by omega)
  have e : 8 * 4096 + X * 256 + Y * 16 + 4 = 0x8004 + 0x100 * X + 0x10 * Y := by omega
  rw [e] at h1 h2 h3 h5
  have hpc := fetch_bound hop
  obtain ⟨-, hp, hV, -⟩ := timerAdvance_frame dt s
  rw [cycle_family8 h dt hop h1]
  have hXF : X ≠ 15 := by omega
  have hYF : Y ≠ 15 := by omega
  refine ⟨_, by simp only [family8, h5]; rfl, ?_, ?_, ?_, ?_⟩
  · simp [finish]
  · by_cases hc : s.V X + s.V Y > 255 <;>
      simp [finish, op_addReg, setV, h2, h3, hV, hc, upd, hXF, hXF.symm]
  · by_cases hc : s.V X + s.V Y > 255 <;>
      simp [finish, op_addReg, setV, h2, h3, hV, hc, upd, hXF, hYF]
  · simp only [finish, op_addReg, setV, if_true, hp]
    split <;> simp only [hp] <;> omega

/-- Witness for C1: `8124` at `0x200` with `V1 = 200`, `V2 = 100`. -/
theorem C1_add_sets_carry_witness :
    ∃ r, CHIP8_EMULATECYCLE idleHost 0
        { blank with memory := program [0x81, 0x24], V := cells [0, 200, 100] } = some r ∧
      r.code = 0 ∧
      r.state.V 0xF = (if cells [0, 200, 100] 1 + cells [0, 200, 100] 2 > 255 then 1 else 0) ∧
      r.state.V 1 = (cells [0, 200, 100] 1 + cells [0, 200, 100] 2) % 256 ∧
      r.state.pc = 0x200 + 2 :=
  C1_add_sets_carry idleHost 0
    { blank with memory := program [0x81, 0x24], V := cells [0, 200, 100] } 1 2
    (by decide) (by decide) (by decide)

/-- C2: when the opcode at `pc` is `8XY5` with `X`, `Y` in `0..14`, and `a`, `b`
are the values of `VX`, `VY` before the step, one cycle leaves `VF = 1` exactly
when `a > b` (and `VF = 0` otherwise) and `VX = (a - b) mod 256`. -/
theorem C2_sub_sets_flag (h : Host) (dt : ℚ) (s : Machine) (X Y : Nat)
    (hX : X ≤ 14) (hY : Y ≤ 14)
    (hop : fetch s = some (0x8005 + 0x100 * X + 0x10 * Y)) :
    ∃ r, CHIP8_EMULATECYCLE h dt s = some r ∧
      (r.state.V 0xF = 1 ↔ s.V X > s.V Y) ∧
      (r.state.V 0xF = 0 ↔ ¬ s.V X > s.V Y) ∧
      (r.state.V X : Int) = ((s.V X : Int) - (s.V Y : Int)) % 256 := by
  obtain ⟨h1, h2, h3, -, h5, -⟩ := decode_nibbles 8 X Y 5 (by omega) (by omega) (by omega)
    (by omega)
  have e : 8 * 4096 + X * 256 + Y * 16 + 5 = 0x8005 + 0x100 * X + 0x10 * Y := by omega
  rw [e] at h1 h2 h3 h5
  obtain ⟨-, -, hV, -⟩ := timerAdvance_frame dt s
  rw [cycle_family8 h dt hop h1]
  have hXF : X ≠ 15 := by omega
  have hYF : Y ≠ 15 := by omega
  refine ⟨_, by simp only [family8, h5]; rfl, ?_, ?_, ?_⟩
  · by_cases hc : s.V X > s.V Y <;>
      simp [finish, op_subReg, setV, h2, h3, hV, hc, upd, hXF, hXF.symm]
  · by_cases hc : s.V X > s.V Y <;>
      simp [finish, op_subReg, setV, h2, h3, hV, hc, upd, hXF, hXF.symm]
  · have hu : ((u8 ((s.V X : Int) - (s.V Y : Int)) : Nat) : Int)
        = ((s.V X : Int) - (s.V Y : Int)) % 256 := by
      unfold u8; omega
    by_cases hc : s.V X > s.V Y <;>
      simp [finish, op_subReg, setV, h2, h3, hV, hc, upd, hXF, hYF, hu]

/-- Witness for C2: `8125` at `0x200` with `V1 = 3`, `V2 = 5`. -/
theorem C2_sub_sets_flag_witness :
    ∃ r, CHIP8_EMULATECYCLE idleHost 0
        { blank with memory := program [0x81, 0x25], V := cells [0, 3, 5] } = some r ∧
      (r.state.V 0xF = 1 ↔ cells [0, 3, 5] 1 > cells [0, 3, 5] 2) ∧
      (r.state.V 0xF = 0 ↔ ¬ cells [0, 3, 5] 1 > cells [0, 3, 5] 2) ∧
      (r.state.V 1 : Int) = ((cells [0, 3, 5] 1 : Int) - (cells [0, 3, 5] 2 : Int)) % 256 :=
  C2_sub_sets_flag idleHost 0
    { blank with memory := program [0x81, 0x25], V := cells [0, 3, 5] } 1 2
    (by decide) (by decide) (by decide)

/-- What `8XYE` does for `X` in `0..14`: `VF` receives the masked byte
`VX & 0x80` (0 or 128), `VX` is doubled modulo 256, `pc` advances by 2. -/
theorem cycle_shl (h : Host) (dt : ℚ) (s : Machine) (X Y : Nat)
    (hX : X ≤ 14) (hY : Y ≤ 15)
    (hop : fetch s = some (0x800E + 0x100 * X + 0x10 * Y)) :
    ∃ r, CHIP8_EMULATECYCLE h dt s = some r ∧ r.code = 0 ∧
      r.state.V 0xF = s.V X &&& 0x80 ∧
      r.state.V X = (2 * s.V X) % 256 := by
  obtain ⟨h1, h2, -, -, h5, -⟩ := decode_nibbles 8 X Y 14 (by omega) (by omega) (by omega)
    (by omega)
  have e : 8 * 4096 + X * 256 + Y * 16 + 14 = 0x800E + 0x100 * X + 0x10 * Y := by omega
  rw [e] at h1 h2 h5
  generalize 0x800E + 0x100 * X + 0x10 * Y = op at hop h1 h2 h5
  obtain ⟨-, -, hV, -⟩ := timerAdvance_frame dt s
  rw [cycle_family8 h dt hop h1]
  have hXF : X ≠ 15 := by omega
  refine ⟨_, by simp only [family8, h5]; rfl, ?_, ?_, ?_⟩
  · simp [finish]
  · simp [finish, op_shl, setV, h2, hV, upd, hXF, hXF.symm]
  · simp [finish, op_shl, setV, h2, hV, upd, hXF, Nat.shiftLeft_eq, Nat.mul_comm]

/-- C3, evaluated where it fails: `810E` with `V1 = 0x81`. The most-significant
bit of `V1` is 1, but the cycle leaves `VF = 128`, the masked byte; `V1` is
doubled modulo 256 as claimed. -/
theorem C3_shl_flag_is_masked_byte :
    ∃ r, CHIP8_EMULATECYCLE idleHost 0
        { blank with memory := program [0x81, 0x0E], V := cells [0, 0x81] } = some r ∧
      r.code = 0 ∧ r.state.V 0xF = 128 ∧ r.state.V 0xF ≠ 0x81 / 128 ∧
      r.state.V 1 = (2 * 0x81) % 256 := by
  obtain ⟨r, hr, hc, hF, hX⟩ := cycle_shl idleHost 0
    { blank with memory := program [0x81, 0x0E], V := cells [0, 0x81] } 1 0
    (by decide) (by decide) (by decide)
  have hv : cells [0, 0x81] 1 = 0x81 := by decide
  simp only [hv] at hF hX
  refine ⟨r, hr, hc, ?_, ?_, hX⟩
  · rw [hF]; decide
  · rw [hF]; decide

/-! ## The call stack (claims C4, C5) -/

theorem cycle_family2 (h : Host) (dt : ℚ) {s : Machine} {op : Nat}
    (hf : fetch s = some op) (h2 : op &&& 0xF000 = 0x2000) :
    CHIP8_EMULATECYCLE h dt s =
      op_call op { timerAdvance dt s with opcode := op } h.events := by
  have h0 : op ≠ 0 := by rintro rfl; simp at h2
  rw [cycle_eq h dt hf h0]
  simp [execute, h2]

/-- A call with `sp < 15` pushes `pc`, increments `sp`, jumps and returns 0. -/
theorem cycle_call_ok (h : Host) (dt : ℚ) (s : Machine) (nnn : Nat) (hn : nnn < 4096)
    (hop : fetch s = some (0x2000 + nnn)) (hsp : s.sp < 15) :
    CHIP8_EMULATECYCLE h dt s =
      some ⟨0, { timerAdvance dt s with
                  opcode := 0x2000 + nnn, stack := upd s.stack s.sp s.pc,
                  sp := s.sp + 1, pc := nnn }, h.events⟩ := by
  obtain ⟨h1, -, -, -, -, -, h7, -⟩ := decode_nibbles 2 (nnn / 256) (nnn / 16 % 16) (nnn % 16)
    (by omega) (by omega) (by omega) (by omega)
  have e : 2 * 4096 + nnn / 256 * 256 + nnn / 16 % 16 * 16 + nnn % 16 = 0x2000 + nnn := by
    omega
  have e' : nnn / 256 * 256 + nnn / 16 % 16 * 16 + nnn % 16 = nnn := by omega
  rw [e] at h1 h7
  rw [e'] at h7
  generalize 0x2000 + nnn = op at hop h1 h7
  obtain ⟨-, hp, -, -, -, hst, hs, -⟩ := timerAdvance_frame dt s
  rw [cycle_family2 h dt hop h1]
  have h15 : s.sp ≠ 15 := by omega
  have h16 : s.sp < 16 := by omega
  have hm : (s.sp + 1) % 65536 = s.sp + 1 := by omega
  simp [op_call, finish, wr, STACKSIZE, hs, hp, hst, h7, h15, h16, hm]

/-- A call with `sp = 15` is refused with code 2; no global but the timers, the
accumulator and `opcode` changes. -/
theorem cycle_call_refused (h : Host) (dt : ℚ) (s : Machine) (nnn : Nat) (hn : nnn < 4096)
    (hop : fetch s = some (0x2000 + nnn)) (hsp : s.sp = 15) :
    CHIP8_EMULATECYCLE h dt s =
      some ⟨2, { timerAdvance dt s with opcode := 0x2000 + nnn }, h.events⟩ := by
  obtain ⟨h1, -⟩ := decode_nibbles 2 (nnn / 256) (nnn / 16 % 16) (nnn % 16)
    (by omega) (by omega) (by omega) (by omega)
  have e : 2 * 4096 + nnn / 256 * 256 + nnn / 16 % 16 * 16 + nnn % 16 = 0x2000 + nnn := by
    omega
  rw [e] at h1
  generalize 0x2000 + nnn = op at hop h1
  obtain ⟨-, -, -, -, -, -, hs, -⟩ := timerAdvance_frame dt s
  rw [cycle_family2 h dt hop h1]
  simp [op_call, hs, hsp]

theorem fetch_all_calls {s : Machine} (hm : ∀ a, s.memory a = 0x22) (hp : s.pc + 1 < 4096) :
    fetch s = some (0x2000 + 0x222) := by
  have h1 : s.pc < 4096 := by omega
  simp [fetch, rd, MEMORYSIZE, hm, hp, h1]

/-- Running a chain of calls: as many frames as fit below `sp = 15` all
return 0, each raising `sp` by one. -/
theorem cycles_call_chain : ∀ (frames : List (Host × ℚ)) (s : Machine),
    (∀ a, s.memory a = 0x22) → s.pc + 1 < 4096 → s.sp + frames.length ≤ 15 →
    ∃ s', cycles frames s = some (0, s') ∧ s'.sp = s.sp + frames.length ∧
      (∀ a, s'.memory a = 0x22) ∧ s'.pc + 1 < 4096 := by
  intro frames
  induction frames with
  | nil => intro s hm hp _; exact ⟨s, rfl, by simp, hm, hp⟩
  | cons f rest ih =>
    intro s hm hp hlen
    obtain ⟨h, dt⟩ := f
    simp only [List.length_cons] at hlen
    have hstep := cycle_call_ok h dt s 0x222 (by omega) (fetch_all_calls hm hp) (by omega)
    obtain ⟨hmem, -⟩ := timerAdvance_frame dt s
    obtain ⟨s', hs', hsp', hm', hp'⟩ := ih
      { timerAdvance dt s with
          opcode := 0x2000 + 0x222, stack := upd s.stack s.sp s.pc,
          sp := s.sp + 1, pc := 0x222 }
      (by intro a; simp only [hmem]; exact hm a) (by simp) (by simp only; omega)
    refine ⟨s', ?_, ?_, hm', hp'⟩
    · simp only [cycles, hstep, if_true]
      exact hs'
    · simp only [hsp', List.length_cons]; omega

theorem cycles_append : ∀ (xs ys : List (Host × ℚ)) (s s' : Machine),
    cycles xs s = some (0, s') → cycles (xs ++ ys) s = cycles ys s' := by
  intro xs
  induction xs with
  | nil =>
    intro ys s s' hx
    simp only [cycles, Option.some.injEq, Prod.mk.injEq, true_and] at hx
    rw [List.nil_append, hx]
  | cons f rest ih =>
    intro ys s s' hx
    obtain ⟨h, dt⟩ := f
    simp only [List.cons_append, cycles] at hx ⊢
    cases hstep : CHIP8_EMULATECYCLE h dt s with
    | none => rw [hstep] at hx; simp at hx
    | some r =>
      rw [hstep] at hx
      simp only at hx ⊢
      by_cases hc : r.code = 0
      · simp only [hc, if_true] at hx ⊢
        exact ih ys r.state s' hx
      · rw [if_neg hc] at hx
        simp only [Option.some.injEq, Prod.mk.injEq] at hx
        exact absurd hx.1 hc

/-- C4, evaluated where it fails: on the program `callChain` (every word is a
call) started with `sp = 0`, fifteen consecutive cycles return 0 and leave
`sp = 15`; the sixteenth consecutive call already returns the fault code 2, with
`sp` still 15. -/
theorem C4_sixteenth_call_faults :
    (∃ s', cycles (List.replicate 15 (idleHost, 0)) callChain = some (0, s') ∧ s'.sp = 15) ∧
    (∃ s', cycles (List.replicate 16 (idleHost, 0)) callChain = some (2, s') ∧ s'.sp = 15) := by
  have hm : ∀ a, callChain.memory a = 0x22 := fun _ => rfl
  have hp : callChain.pc + 1 < 4096 := by decide
  obtain ⟨s', hs', hsp', hm', hp'⟩ :=
    cycles_call_chain (List.replicate 15 (idleHost, 0)) callChain hm hp (by decide)
  have hsp15 : s'.sp = 15 := by
    rw [hsp']; decide
  refine ⟨⟨s', hs', hsp15⟩, ?_⟩
  have hlast := cycle_call_refused idleHost 0 s' 0x222 (by omega) (fetch_all_calls hm' hp') hsp15
  have hsplit : List.replicate 16 (idleHost, (0 : ℚ))
      = List.replicate 15 (idleHost, 0) ++ [(idleHost, 0)] := by
    rw [show 16 = 15 + 1 from rfl, List.replicate_succ']
  refine ⟨{ timerAdvance 0 s' with opcode := 0x2000 + 0x222 }, ?_, ?_⟩
  · rw [hsplit, cycles_append _ _ _ _ hs']
    simp only [cycles, hlast]
    rfl
  · obtain ⟨-, -, -, -, -, -, hs, -⟩ := timerAdvance_frame 0 s'
    simp only [hs, hsp15]

theorem cycle_return (h : Host) (dt : ℚ) {s : Machine} (hf : fetch s = some 0x00EE) :
    CHIP8_EMULATECYCLE h dt s =
      op_return { timerAdvance dt s with opcode := 0x00EE } h.events := by
  rw [cycle_eq h dt hf (by decide)]
  have h1 : (0x00EE : Nat) &&& 0xF000 = 0 := by decide
  have h2 : (0x00EE : Nat) &&& 0x000F = 0xE := by decide
  simp only [execute, family0, h1, h2, if_true]
  rfl

/-- A return with `sp = 0` indexes `stack` at `sp-1u = 4294967295` before the
test `sp == 0` is reached: the cycle has no defined result. -/
theorem cycle_return_empty (h : Host) (dt : ℚ) (s : Machine)
    (hf : fetch s = some 0x00EE) (hsp : s.sp = 0) :
    CHIP8_EMULATECYCLE h dt s = none := by
  obtain ⟨-, -, -, -, -, -, hs, -⟩ := timerAdvance_frame dt s
  have hu : u32 (-1) = 4294967295 := by decide
  rw [cycle_return h dt hf]
  simp [op_return, rd, STACKSIZE, hs, hsp, hu]

/-- A return with `1 <= sp <= 16` stays inside `stack`: it pops the entry below
`sp`, zeroes it, and continues at the popped address plus 2. -/
theorem cycle_return_ok (h : Host) (dt : ℚ) (s : Machine)
    (hf : fetch s = some 0x00EE) (h1 : 1 ≤ s.sp) (h16 : s.sp ≤ 16) :
    CHIP8_EMULATECYCLE h dt s =
      some ⟨0, { timerAdvance dt s with
                  opcode := 0x00EE, pc := (s.stack (s.sp - 1) + 2) % 65536,
                  stack := upd s.stack (s.sp - 1) 0, sp := s.sp - 1 }, h.events⟩ := by
  obtain ⟨-, -, -, -, -, hst, hs, -⟩ := timerAdvance_frame dt s
  have hu : u32 ((s.sp : Int) - 1) = s.sp - 1 := by unfold u32; omega
  have hlt : s.sp - 1 < STACKSIZE := by unfold STACKSIZE; omega
  have hne : s.sp ≠ 0 := by omega
  rw [cycle_return h dt hf]
  simp [op_return, hs, hst, hu, rd_of_lt hlt, wr_of_lt hlt, hne, finish]

/-- C5, evaluated where it fails: `00EE` at `0x200` with `sp = 0`. The index
`sp-1u` is 4294967295, outside the 16 entries of `stack`, and the cycle reads
and writes `stack` there before testing `sp == 0`: it does not return 2. -/
theorem C5_return_on_empty_stack_out_of_bounds :
    u32 ((({ blank with memory := program [0x00, 0xEE] } : Machine).sp : Int) - 1) = 4294967295 ∧
    rd STACKSIZE ({ blank with memory := program [0x00, 0xEE] } : Machine).stack 4294967295
      = none ∧
    CHIP8_EMULATECYCLE idleHost 0 { blank with memory := program [0x00, 0xEE] } = none := by
  refine ⟨by decide, by decide, ?_⟩
  exact cycle_return_empty idleHost 0 _ (by decide) (by decide)

/-! ## Sprite drawing (claims C6, C7) -/

theorem drawIndex_inj {vx vy i j : Nat} (hij : drawIndex vx vy i = drawIndex vx vy j) :
    i = j := by
  unfold drawIndex SCREENX at hij
  omega

/-- One iteration of the draw loop with its accesses in bounds. -/
theorem drawLoop_step (x y rem i : Nat) (s : Machine)
    (hg : drawIndex (s.V x) (s.V y) i < 2048) (hm : s.I + i / 8 < 4096) :
    drawLoop x y (rem + 1) i s =
      drawLoop x y rem (i + 1)
        { s with
          gfx := upd s.gfx (drawIndex (s.V x) (s.V y) i)
            (s.gfx (drawIndex (s.V x) (s.V y) i) ^^^ spriteBit (s.memory (s.I + i / 8)) i),
          V := upd s.V 15
            (if s.gfx (drawIndex (s.V x) (s.V y) i) = 1 ∧
                spriteBit (s.memory (s.I + i / 8)) i = 1 then 1 else s.V 15) } := by
  have hg' : (s.V y + i / 8) * SCREENX + (s.V x + i % 8) < SCREENX * SCREENY := by
    simpa [drawIndex, SCREENX, SCREENY] using hg
  have hm' : s.I + i / 8 < MEMORYSIZE := by simpa [MEMORYSIZE] using hm
  rw [drawLoop]
  simp only [rd_of_lt hg', rd_of_lt hm']
  by_cases hc : s.gfx ((s.V y + i / 8) * SCREENX + (s.V x + i % 8)) = 1 ∧
      spriteBit (s.memory (s.I + i / 8)) i = 1
  · simp only [hc, and_self, if_true, setV, wr_of_lt hg', drawIndex]
  · simp only [hc, if_false, wr_of_lt hg', drawIndex]
    congr 1
    apply Machine.ext <;> simp [upd_self]

/-- The draw loop with every access in bounds and `x`, `y` other than `0xF`:
only `gfx` and `V[0xF]` change; each addressed cell is XORed once with its
sprite bit, every other cell is kept, and `V[0xF]` becomes 1 on a collision and
keeps its value otherwise. -/
theorem drawLoop_spec (x y : Nat) (hx : x ≠ 15) (hy : y ≠ 15) :
    ∀ (rem i : Nat) (s : Machine),
    (∀ j, i ≤ j → j < i + rem →
      drawIndex (s.V x) (s.V y) j < 2048 ∧ s.I + j / 8 < 4096) →
    ∃ g vf, drawLoop x y rem i s = some { s with gfx := g, V := upd s.V 15 vf } ∧
      (∀ j, i ≤ j → j < i + rem →
        g (drawIndex (s.V x) (s.V y) j)
          = s.gfx (drawIndex (s.V x) (s.V y) j) ^^^ spriteBit (s.memory (s.I + j / 8)) j) ∧
      (∀ p, (∀ j, i ≤ j → j < i + rem → p ≠ drawIndex (s.V x) (s.V y) j) → g p = s.gfx p) ∧
      (∀ j, i ≤ j → j < i + rem → s.gfx (drawIndex (s.V x) (s.V y) j) = 1 →
        spriteBit (s.memory (s.I + j / 8)) j = 1 → vf = 1) ∧
      ((∀ j, i ≤ j → j < i + rem → ¬ (s.gfx (drawIndex (s.V x) (s.V y) j) = 1 ∧
        spriteBit (s.memory (s.I + j / 8)) j = 1)) → vf = s.V 15) ∧
      (vf = 1 ∨ vf = s.V 15) := by
  intro rem
  induction rem with
  | zero =>
    intro i s _
    refine ⟨s.gfx, s.V 15, ?_, ?_, ?_, ?_, ?_, ?_⟩
    · rw [drawLoop]; congr 1; apply Machine.ext <;> simp [upd_self]
    · intro j h1 h2; omega
    · intro p _; rfl
    · intro j h1 h2; omega
    · intro _; rfl
    · exact Or.inr rfl
  | succ rem ih =>
    intro i s hb
    obtain ⟨hg, hm⟩ := hb i (le_refl _) (by omega)
    rw [drawLoop_step x y rem i s hg hm]
    have hne : ∀ j, i + 1 ≤ j → drawIndex (s.V x) (s.V y) j ≠ drawIndex (s.V x) (s.V y) i := by
      intro j hj hij
      have := drawIndex_inj hij
      omega
    obtain ⟨g, vf, heq, hset, hkeep, hhit, hmiss, hor⟩ := ih (i + 1)
      { s with
        gfx := upd s.gfx (drawIndex (s.V x) (s.V y) i)
          (s.gfx (drawIndex (s.V x) (s.V y) i) ^^^ spriteBit (s.memory (s.I + i / 8)) i),
        V := upd s.V 15
          (if s.gfx (drawIndex (s.V x) (s.V y) i) = 1 ∧
              spriteBit (s.memory (s.I + i / 8)) i = 1 then 1 else s.V 15) }
      (by
        intro j h1 h2
        simp only [upd_ne hx, upd_ne hy]
        exact hb j (by omega) (by omega))
    simp only [upd_ne hx, upd_ne hy, upd_idem, upd_same] at heq hset hkeep hhit hmiss hor
    refine ⟨g, vf, heq, ?_, ?_, ?_, ?_, ?_⟩
    · intro j h1 h2
      rcases Nat.eq_or_lt_of_le h1 with h | h
      · subst h
        rw [hkeep _ (fun j h1 _ hij => hne j h1 hij.symm), upd_same]
      · rw [hset j (by omega) (by omega), upd_ne (hne j (by omega))]
    · intro p hp
      rw [hkeep p (fun j h1 h2 => hp j (by omega) (by omega))]
      rw [upd_ne (hp i (le_refl _) (by omega))]
    · intro j h1 h2 h3 h4
      rcases Nat.eq_or_lt_of_le h1 with h | h
      · subst h
        rcases hor with h | h
        · exact h
        · rw [h, if_pos ⟨h3, h4⟩]
      · exact hhit j (by omega) (by omega)
          (by rw [upd_ne (hne j (by omega))]; exact h3) h4
    · intro hno
      rw [hmiss (fun j h1 h2 hc => hno j (by omega) (by omega)
        ⟨by rw [upd_ne (hne j h1)] at hc; exact hc.1, hc.2⟩)]
      rw [if_neg (hno i (le_refl _) (by omega))]
    · rcases hor with h | h
      · exact Or.inl h
      · rw [h]
        by_cases hc : s.gfx (drawIndex (s.V x) (s.V y) i) = 1 ∧
            spriteBit (s.memory (s.I + i / 8)) i = 1
        · rw [if_pos hc]; exact Or.inl rfl
        · rw [if_neg hc]; exact Or.inr rfl

theorem cycle_familyD (h : Host) (dt : ℚ) {s : Machine} {op : Nat}
    (hf : fetch s = some op) (hD : op &&& 0xF000 = 0xD000) :
    CHIP8_EMULATECYCLE h dt s =
      op_draw op { timerAdvance dt s with opcode := op } h.events := by
  have h0 : op ≠ 0 := by rintro rfl; simp at hD
  rw [cycle_eq h dt hf h0]
  simp [execute, hD]

/-- A draw cycle `DXYN` (`X`, `Y` other than `0xF`) whose `8*N` accesses are all
in bounds: the cycle returns 0 with `pc` advanced by 2; iteration `j` XORs its
sprite bit into `gfx[drawIndex VX VY j]`, no other cell changes, and `VF` is 1
on a collision and 0 otherwise. No coordinate is reduced modulo the screen
size. -/
theorem cycle_draw (h : Host) (dt : ℚ) (s : Machine) (X Y N : Nat)
    (hX : X ≤ 14) (hY : Y ≤ 14) (hN : N ≤ 15)
    (hop : fetch s = some (0xD000 + 0x100 * X + 0x10 * Y + N))
    (hb : ∀ j, j < 8 * N → drawIndex (s.V X) (s.V Y) j < 2048 ∧ s.I + j / 8 < 4096) :
    ∃ g vf,
      CHIP8_EMULATECYCLE h dt s =
        some ⟨0, { timerAdvance dt s with
                    opcode := 0xD000 + 0x100 * X + 0x10 * Y + N,
                    gfx := g, V := upd s.V 15 vf, pc := s.pc + 2 }, h.events⟩ ∧
      (∀ j, j < 8 * N →
        g (drawIndex (s.V X) (s.V Y) j)
          = s.gfx (drawIndex (s.V X) (s.V Y) j) ^^^ spriteBit (s.memory (s.I + j / 8)) j) ∧
      (∀ p, (∀ j, j < 8 * N → p ≠ drawIndex (s.V X) (s.V Y) j) → g p = s.gfx p) ∧
      (∀ j, j < 8 * N → s.gfx (drawIndex (s.V X) (s.V Y) j) = 1 →
        spriteBit (s.memory (s.I + j / 8)) j = 1 → vf = 1) ∧
      ((∀ j, j < 8 * N → ¬ (s.gfx (drawIndex (s.V X) (s.V Y) j) = 1 ∧
        spriteBit (s.memory (s.I + j / 8)) j = 1)) → vf = 0) := by
  obtain ⟨h1, h2, h3, h4, -⟩ := decode_nibbles 13 X Y N (by omega) (by omega) (by omega)
    (by omega)
  have e : 13 * 4096 + X * 256 + Y * 16 + N = 0xD000 + 0x100 * X + 0x10 * Y + N := by omega
  rw [e] at h1 h2 h3 h4
  have hpc := fetch_bound hop
  generalize 0xD000 + 0x100 * X + 0x10 * Y + N = op at hop h1 h2 h3 h4
  obtain ⟨hM, hp, hV, hI, hG, -⟩ := timerAdvance_frame dt s
  have hXF : X ≠ 15 := by omega
  have hYF : Y ≠ 15 := by omega
  obtain ⟨g, vf, heq, hset, hkeep, hhit, hmiss, -⟩ :=
    drawLoop_spec X Y hXF hYF (8 * N) 0 (setV { timerAdvance dt s with opcode := op } 0xF 0)
      (by
        intro j _ hj
        simp only [setV, upd_ne hXF, upd_ne hYF, hV, hI]
        exact hb j (by omega))
  simp only [setV, upd_ne hXF, upd_ne hYF, upd_idem, upd_same, hV, hI, hG, hM, hp, zero_add,
    Nat.zero_le, true_implies] at heq hset hkeep hhit hmiss
  refine ⟨g, vf, ?_, hset, hkeep, hhit, hmiss⟩
  rw [cycle_familyD h dt hop h1]
  have hm : (s.pc + 2) % 65536 = s.pc + 2 := by omega
  simp only [op_draw, h2, h3, h4, setV, hV, hM, hI, hG, hp, heq, finish, if_true, hm]

theorem spriteBit_mod (b i : Nat) : spriteBit b i = spriteBit b (i % 8) := by
  simp [spriteBit, Nat.mod_mod]

/-- The draw loop has no defined result as soon as one of its accesses is out
of bounds. -/
theorem drawLoop_oob (x y : Nat) (hx : x ≠ 15) (hy : y ≠ 15) :
    ∀ (rem i : Nat) (s : Machine),
    (∃ j, i ≤ j ∧ j < i + rem ∧
      (2048 ≤ drawIndex (s.V x) (s.V y) j ∨ 4096 ≤ s.I + j / 8)) →
    drawLoop x y rem i s = none := by
  intro rem
  induction rem with
  | zero => rintro i s ⟨j, h1, h2, -⟩; omega
  | succ rem ih =>
    rintro i s ⟨j, h1, h2, hj⟩
    by_cases hin : drawIndex (s.V x) (s.V y) i < 2048 ∧ s.I + i / 8 < 4096
    · rw [drawLoop_step x y rem i s hin.1 hin.2]
      apply ih
      have hji : j ≠ i := by rintro rfl; omega
      refine ⟨j, by omega, by omega, ?_⟩
      simpa only [upd_ne hx, upd_ne hy] using hj
    · rw [drawLoop]
      by_cases hg : drawIndex (s.V x) (s.V y) i < 2048
      · have hm : ¬ s.I + i / 8 < MEMORYSIZE := by
          intro hm; exact hin ⟨hg, by simpa [MEMORYSIZE] using hm⟩
        simp [rd, hm]
      · have hg' : ¬ (s.V y + i / 8) * SCREENX + (s.V x + i % 8) < SCREENX * SCREENY := by
          simpa [drawIndex, SCREENX, SCREENY] using hg
        simp [rd, hg']

/-- A draw cycle `DXYN` (`X`, `Y` other than `0xF`) one of whose accesses falls
outside `gfx` or `memory` has no defined result. -/
theorem cycle_draw_oob (h : Host) (dt : ℚ) (s : Machine) (X Y N : Nat)
    (hX : X ≤ 14) (hY : Y ≤ 14) (hN : N ≤ 15)
    (hop : fetch s = some (0xD000 + 0x100 * X + 0x10 * Y + N))
    (hb : ∃ j, j < 8 * N ∧ (2048 ≤ drawIndex (s.V X) (s.V Y) j ∨ 4096 ≤ s.I + j / 8)) :
    CHIP8_EMULATECYCLE h dt s = none := by
  obtain ⟨h1, h2, h3, h4, -⟩ := decode_nibbles 13 X Y N (by omega) (by omega) (by omega)
    (by omega)
  have e : 13 * 4096 + X * 256 + Y * 16 + N = 0xD000 + 0x100 * X + 0x10 * Y + N := by omega
  rw [e] at h1 h2 h3 h4
  generalize 0xD000 + 0x100 * X + 0x10 * Y + N = op at hop h1 h2 h3 h4
  obtain ⟨-, -, hV, hI, -⟩ := timerAdvance_frame dt s
  have hXF : X ≠ 15 := by omega
  have hYF : Y ≠ 15 := by omega
  obtain ⟨j, hj, hoob⟩ := hb
  have hnone := drawLoop_oob X Y hXF hYF (8 * N) 0
    (setV { timerAdvance dt s with opcode := op } 0xF 0)
    ⟨j, Nat.zero_le _, by omega, by simpa only [setV, upd_ne hXF, upd_ne hYF, hV, hI] using hoob⟩
  rw [cycle_familyD h dt hop h1]
  simp only [op_draw, h2, h3, h4, hnone]

/-- The sprite of the spec's own example, 8x4 at `(60, 30)`: the fifth bit of the
second row is addressed at `gfx[2048]`, one past the array, so the cycle has no
defined result. -/
theorem draw_at_60_30_out_of_bounds :
    drawIndex (cornerSprite.V 0) (cornerSprite.V 1) 12 = 2048 ∧
    CHIP8_EMULATECYCLE idleHost 0 cornerSprite = none :=
  ⟨by decide,
   cycle_draw_oob idleHost 0 cornerSprite 0 1 4 (by decide) (by decide) (by decide)
     (by decide) ⟨12, by decide, Or.inl (by decide)⟩⟩

/-- C6 (amended): for a draw `DXYN` with `X`, `Y` in `0..14` whose sprite lies
entirely on screen (`VX + 7 <= 63`, `VY + N <= 32`) and in memory
(`I + N <= 4096`), the cycle returns 0, each of the `N` rows and 8 columns is
XORed into the pixel `((VX + col) mod 64, (VY + row) mod 32)`, and no pixel
outside those coordinates changes. -/
theorem C6_draw_on_screen (h : Host) (dt : ℚ) (s : Machine) (X Y N : Nat)
    (hX : X ≤ 14) (hY : Y ≤ 14) (hN : N ≤ 15)
    (hop : fetch s = some (0xD000 + 0x100 * X + 0x10 * Y + N))
    (hx : s.V X + 7 ≤ 63) (hy : s.V Y + N ≤ 32) (hI : s.I + N ≤ 4096) :
    ∃ r, CHIP8_EMULATECYCLE h dt s = some r ∧ r.code = 0 ∧
      (∀ row col, row < N → col < 8 →
        r.state.gfx (((s.V Y + row) % 32) * 64 + (s.V X + col) % 64)
          = s.gfx (((s.V Y + row) % 32) * 64 + (s.V X + col) % 64)
              ^^^ spriteBit (s.memory (s.I + row)) col) ∧
      (∀ p, (∀ row col, row < N → col < 8 →
          p ≠ ((s.V Y + row) % 32) * 64 + (s.V X + col) % 64) →
        r.state.gfx p = s.gfx p) := by
  obtain ⟨g, vf, heq, hset, hkeep, -, -⟩ := cycle_draw h dt s X Y N hX hY hN hop
    (by
      intro j hj
      unfold drawIndex SCREENX
      constructor <;> omega)
  refine ⟨_, heq, rfl, ?_, ?_⟩
  · intro row col hr hc
    have hj := hset (8 * row + col) (by omega)
    have e1 : drawIndex (s.V X) (s.V Y) (8 * row + col)
        = ((s.V Y + row) % 32) * 64 + (s.V X + col) % 64 := by
      unfold drawIndex SCREENX; omega
    have e2 : (8 * row + col) / 8 = row := by omega
    have e3 : spriteBit (s.memory (s.I + row)) (8 * row + col)
        = spriteBit (s.memory (s.I + row)) col := by
      rw [spriteBit_mod, show (8 * row + col) % 8 = col by omega]
    rw [e1, e2, e3] at hj
    exact hj
  · intro p hp
    apply hkeep
    intro j hj hpj
    apply hp (j / 8) (j % 8) (by omega) (by omega)
    rw [hpj]
    unfold drawIndex SCREENX; omega

/-- Witness for C6: the two-row sprite of `innerSprite` drawn at `(10, 5)`. -/
theorem C6_draw_on_screen_witness :
    ∃ r, CHIP8_EMULATECYCLE idleHost 0 innerSprite = some r ∧ r.code = 0 ∧
      (∀ row col, row < 2 → col < 8 →
        r.state.gfx (((innerSprite.V 1 + row) % 32) * 64 + (innerSprite.V 0 + col) % 64)
          = innerSprite.gfx (((innerSprite.V 1 + row) % 32) * 64 + (innerSprite.V 0 + col) % 64)
              ^^^ spriteBit (innerSprite.memory (innerSprite.I + row)) col) ∧
      (∀ p, (∀ row col, row < 2 → col < 8 →
          p ≠ ((innerSprite.V 1 + row) % 32) * 64 + (innerSprite.V 0 + col) % 64) →
        r.state.gfx p = innerSprite.gfx p) :=
  C6_draw_on_screen idleHost 0 innerSprite 0 1 2 (by decide) (by decide) (by decide)
    (by decide) (by decide) (by decide) (by decide)

/-- C6 as stated fails: `edgeSprite` draws one row `FF` at `(60, 0)`. Column 4
is not XORed into the wrapped pixel `(0, 0)`, `gfx[0]`; the cycle writes
`gfx[64]`, the pixel `(0, 1)`, which is none of the wrapped coordinates. -/
theorem C6_draw_does_not_wrap :
    ¬ ∃ r, CHIP8_EMULATECYCLE idleHost 0 edgeSprite = some r ∧
      (∀ row col, row < 1 → col < 8 →
        r.state.gfx (((edgeSprite.V 1 + row) % 32) * 64 + (edgeSprite.V 0 + col) % 64)
          = edgeSprite.gfx (((edgeSprite.V 1 + row) % 32) * 64 + (edgeSprite.V 0 + col) % 64)
              ^^^ spriteBit (edgeSprite.memory (edgeSprite.I + row)) col) ∧
      (∀ p, (∀ row col, row < 1 → col < 8 →
          p ≠ ((edgeSprite.V 1 + row) % 32) * 64 + (edgeSprite.V 0 + col) % 64) →
        r.state.gfx p = edgeSprite.gfx p) := by
  rintro ⟨r, hr, -, hkeep⟩
  obtain ⟨g, vf, heq, hset, -⟩ := cycle_draw idleHost 0 edgeSprite 0 1 1 (by decide)
    (by decide) (by decide) (by decide)
    (by
      intro j hj
      have h0 : edgeSprite.V 0 = 60 := rfl
      have h1 : edgeSprite.V 1 = 0 := rfl
      have h2 : edgeSprite.I = 0x202 := rfl
      rw [h0, h1, h2]
      unfold drawIndex SCREENX
      constructor <;> omega)
  rw [heq] at hr
  have hg : r.state.gfx = g := by
    simp only [Option.some.injEq] at hr
    rw [← hr]
  have h64 : g 64 = 1 := by
    have := hset 4 (by decide)
    have e : drawIndex (edgeSprite.V 0) (edgeSprite.V 1) 4 = 64 := by decide
    rw [e] at this
    rw [this]
    decide
  have hkept : r.state.gfx 64 = edgeSprite.gfx 64 := by
    apply hkeep
    intro row col hrow hcol
    have h0 : edgeSprite.V 0 = 60 := rfl
    have h1 : edgeSprite.V 1 = 0 := rfl
    rw [h0, h1]
    omega
  rw [hg, h64] at hkept
  exact absurd hkept (by decide)

theorem fetch_congr {s t : Machine} (hm : s.memory = t.memory) (hp : s.pc = t.pc) :
    fetch s = fetch t := by
  simp only [fetch, hm, hp]

theorem spriteBit_of_testBit {b k : Nat} (hk : k < 8) (hb : b.testBit k = true) (row : Nat) :
    spriteBit b (8 * row + (7 - k)) = 1 := by
  rw [spriteBit_eq, show 7 - (8 * row + (7 - k)) % 8 = k by omega]
  simpa [Nat.testBit_to_div_mod] using hb

theorem spriteBit_le_one (b i : Nat) : spriteBit b i = 0 ∨ spriteBit b i = 1 := by
  rw [spriteBit_eq]; omega

/-- C7: a sprite of height `N` in `1..15` with at least one set bit, stored at
`I..I+N-1`, anchored fully on screen (`VX + 7 <= 63`, `VY + N - 1 <= 31`, `X` and
`Y` other than `0xF`), drawn by the same `DXYN` instruction twice in succession
(the words at `pc` and `pc + 2`) on an all-zero framebuffer: both cycles
return 0, `VF = 0` after the first, `VF = 1` after the second, and the
framebuffer is all-zero again. -/
theorem C7_draw_twice_clears (h1 h2 : Host) (dt1 dt2 : ℚ) (s : Machine) (X Y N : Nat)
    (hX : X ≤ 14) (hY : Y ≤ 14) (hN1 : 1 ≤ N) (hN : N ≤ 15)
    (hop1 : fetch s = some (0xD000 + 0x100 * X + 0x10 * Y + N))
    (hop2 : fetch { s with pc := s.pc + 2 } = some (0xD000 + 0x100 * X + 0x10 * Y + N))
    (hx : s.V X + 7 ≤ 63) (hy : s.V Y + N - 1 ≤ 31) (hI : s.I + N - 1 ≤ 4095)
    (hblank : ∀ p, p < SCREENX * SCREENY → s.gfx p = 0)
    (hbit : ∃ row k, row < N ∧ k < 8 ∧ (s.memory (s.I + row)).testBit k = true) :
    ∃ r1 r2, CHIP8_EMULATECYCLE h1 dt1 s = some r1 ∧ r1.code = 0 ∧ r1.state.V 0xF = 0 ∧
      CHIP8_EMULATECYCLE h2 dt2 r1.state = some r2 ∧ r2.code = 0 ∧ r2.state.V 0xF = 1 ∧
      ∀ p, p < SCREENX * SCREENY → r2.state.gfx p = 0 := by
  have hXF : X ≠ 15 := by omega
  have hYF : Y ≠ 15 := by omega
  have hin : ∀ j, j < 8 * N → drawIndex (s.V X) (s.V Y) j < 2048 ∧ s.I + j / 8 < 4096 := by
    intro j hj
    unfold drawIndex SCREENX
    constructor <;> omega
  have hzero : ∀ j, j < 8 * N → s.gfx (drawIndex (s.V X) (s.V Y) j) = 0 := by
    intro j hj
    exact hblank _ (by simpa [SCREENX, SCREENY] using (hin j hj).1)
  obtain ⟨hM, -⟩ := timerAdvance_frame dt1 s
  -- first draw
  obtain ⟨g, vf, heq, hset, hkeep, -, hmiss⟩ := cycle_draw h1 dt1 s X Y N hX hY hN hop1 hin
  have hvf : vf = 0 := hmiss (fun j hj hc => by rw [hzero j hj] at hc; exact absurd hc.1 (by decide))
  have hg : ∀ j, j < 8 * N →
      g (drawIndex (s.V X) (s.V Y) j) = spriteBit (s.memory (s.I + j / 8)) j := by
    intro j hj
    rw [hset j hj, hzero j hj, Nat.zero_xor]
  -- second draw, from the state left by the first
  obtain ⟨g2, vf2, heq2, hset2, hkeep2, hhit2, -⟩ := cycle_draw h2 dt2
    { timerAdvance dt1 s with
      opcode := 0xD000 + 0x100 * X + 0x10 * Y + N,
      gfx := g, V := upd s.V 15 vf, pc := s.pc + 2 } X Y N hX hY hN
    (by rw [← hop2]; exact fetch_congr hM rfl)
    (by simpa only [upd_ne hXF, upd_ne hYF, timerAdvance_frame dt1 s] using hin)
  simp only [upd_ne hXF, upd_ne hYF, timerAdvance_frame dt1 s] at hset2 hkeep2 hhit2
  refine ⟨_, _, heq, rfl, ?_, heq2, rfl, ?_, ?_⟩
  · simp only [upd_same, hvf]
  · simp only [upd_same]
    obtain ⟨row, k, hrow, hk, hb⟩ := hbit
    have hj : 8 * row + (7 - k) < 8 * N := by omega
    have hb1 : spriteBit (s.memory (s.I + (8 * row + (7 - k)) / 8)) (8 * row + (7 - k)) = 1 := by
      rw [show (8 * row + (7 - k)) / 8 = row by omega]
      exact spriteBit_of_testBit hk hb row
    exact hhit2 _ hj (by rw [hg _ hj]; exact hb1) hb1
  · intro p hp
    simp only
    by_cases hex : ∃ j, j < 8 * N ∧ p = drawIndex (s.V X) (s.V Y) j
    · obtain ⟨j, hj, rfl⟩ := hex
      rw [hset2 j hj, hg j hj, Nat.xor_self]
    · rw [hkeep2 p (fun j hj hpj => hex ⟨j, hj, hpj⟩), hkeep p (fun j hj hpj => hex ⟨j, hj, hpj⟩)]
      exact hblank p hp

/-- Witness for C7: `innerSprite` holds `D012` twice and the sprite `FF 81`. -/
theorem C7_draw_twice_clears_witness :
    ∃ r1 r2, CHIP8_EMULATECYCLE idleHost 0 innerSprite = some r1 ∧ r1.code = 0 ∧
      r1.state.V 0xF = 0 ∧
      CHIP8_EMULATECYCLE idleHost 0 r1.state = some r2 ∧ r2.code = 0 ∧ r2.state.V 0xF = 1 ∧
      ∀ p, p < SCREENX * SCREENY → r2.state.gfx p = 0 :=
  C7_draw_twice_clears idleHost idleHost 0 0 innerSprite 0 1 2 (by decide) (by decide)
    (by decide) (by decide) (by decide) (by decide) (by decide) (by decide) (by decide)
    (fun _ _ => rfl) ⟨0, 0, by decide, by decide, by decide⟩

/-! ## Family 0xF: decimal digits and the key wait (claims C9, C10) -/

theorem cycle_familyF (h : Host) (dt : ℚ) {s : Machine} {op : Nat}
    (hf : fetch s = some op) (hF : op &&& 0xF000 = 0xF000) :
    CHIP8_EMULATECYCLE h dt s =
      familyF op { timerAdvance dt s with opcode := op } h.events := by
  have h0 : op ≠ 0 := by rintro rfl; simp at hF
  rw [cycle_eq h dt hf h0]
  simp [execute, hF]

/-- What `FX33` does when `I + 2` is inside `memory`: the three digits are
stored, `pc` advances by 2, nothing else changes. -/
theorem cycle_bcd (h : Host) (dt : ℚ) (s : Machine) (X : Nat) (hX : X ≤ 15)
    (hop : fetch s = some (0xF033 + 0x100 * X)) (hI : s.I + 2 ≤ 4095) :
    CHIP8_EMULATECYCLE h dt s =
      some ⟨0, { timerAdvance dt s with
                  opcode := 0xF033 + 0x100 * X,
                  memory := upd (upd (upd s.memory s.I (s.V X / 100))
                    (s.I + 1) (s.V X / 10 % 10)) (s.I + 2) (s.V X % 10),
                  pc := s.pc + 2 }, h.events⟩ := by
  obtain ⟨h1, h2, -, -, -, h6, -⟩ := decode_nibbles 15 X 3 3 (by omega) (by omega) (by omega)
    (by omega)
  have e : 15 * 4096 + X * 256 + 3 * 16 + 3 = 0xF033 + 0x100 * X := by omega
  rw [e] at h1 h2 h6
  have hpc := fetch_bound hop
  generalize 0xF033 + 0x100 * X = op at hop h1 h2 h6
  obtain ⟨hM, hp, hV, hI', -⟩ := timerAdvance_frame dt s
  rw [cycle_familyF h dt hop h1]
  have hm : (s.pc + 2) % 65536 = s.pc + 2 := by omega
  have b0 : s.I < MEMORYSIZE := by unfold MEMORYSIZE; omega
  have b1 : s.I + 1 < MEMORYSIZE := by unfold MEMORYSIZE; omega
  have b2 : s.I + 2 < MEMORYSIZE := by unfold MEMORYSIZE; omega
  simp [familyF, h6, op_bcd, h2, hM, hp, hV, hI', wr_of_lt b0, wr_of_lt b1, wr_of_lt b2,
    finish, hm]

/-- C9: when the opcode at `pc` is `FX33`, `I + 2 <= 4095` and `v` is the (8-bit)
value of `VX`, one cycle returns 0 and leaves `memory[I] = v / 100`,
`memory[I+1] = (v / 10) mod 10`, `memory[I+2] = v mod 10`; each of the three
bytes is a decimal digit, `100*memory[I] + 10*memory[I+1] + memory[I+2] = v`,
and every other memory byte, every register and `I` are unchanged. -/
theorem C9_bcd_digits (h : Host) (dt : ℚ) (s : Machine) (X : Nat) (hX : X ≤ 15)
    (hop : fetch s = some (0xF033 + 0x100 * X)) (hI : s.I + 2 ≤ 4095)
    (hv : s.V X < 256) :
    ∃ r, CHIP8_EMULATECYCLE h dt s = some r ∧ r.code = 0 ∧
      r.state.memory s.I = s.V X / 100 ∧
      r.state.memory (s.I + 1) = (s.V X / 10) % 10 ∧
      r.state.memory (s.I + 2) = s.V X % 10 ∧
      (r.state.memory s.I ≤ 9 ∧ r.state.memory (s.I + 1) ≤ 9 ∧ r.state.memory (s.I + 2) ≤ 9) ∧
      100 * r.state.memory s.I + 10 * r.state.memory (s.I + 1) + r.state.memory (s.I + 2)
        = s.V X ∧
      (∀ a, a ≠ s.I → a ≠ s.I + 1 → a ≠ s.I + 2 → r.state.memory a = s.memory a) ∧
      r.state.V = s.V ∧ r.state.I = s.I := by
  obtain ⟨-, -, hV, hI', -⟩ := timerAdvance_frame dt s
  have m0 : upd (upd (upd s.memory s.I (s.V X / 100)) (s.I + 1) (s.V X / 10 % 10))
      (s.I + 2) (s.V X % 10) s.I = s.V X / 100 := by
    rw [upd_ne (by omega), upd_ne (by omega), upd_same]
  have m1 : upd (upd (upd s.memory s.I (s.V X / 100)) (s.I + 1) (s.V X / 10 % 10))
      (s.I + 2) (s.V X % 10) (s.I + 1) = s.V X / 10 % 10 := by
    rw [upd_ne (by omega), upd_same]
  have m2 : upd (upd (upd s.memory s.I (s.V X / 100)) (s.I + 1) (s.V X / 10 % 10))
      (s.I + 2) (s.V X % 10) (s.I + 2) = s.V X % 10 := by
    rw [upd_same]
  refine ⟨_, cycle_bcd h dt s X hX hop hI, rfl, m0, m1, m2, ?_, ?_, ?_, hV, hI'⟩
  · simp only [m0, m1, m2]; omega
  · simp only [m0, m1, m2]; omega
  · intro a h0 h1 h2
    simp only [upd_ne h2, upd_ne h1, upd_ne h0]

/-- Witness for C9: `bcdDemo` has `V3 = 234`, so the bytes stored at `0x300`,
`0x301`, `0x302` are 2, 3, 4. -/
theorem C9_bcd_digits_witness :
    ∃ r, CHIP8_EMULATECYCLE idleHost 0 bcdDemo = some r ∧ r.code = 0 ∧
      r.state.memory 0x300 = 2 ∧
      r.state.memory (0x300 + 1) = 3 ∧
      r.state.memory (0x300 + 2) = 4 ∧
      (r.state.memory 0x300 ≤ 9 ∧ r.state.memory (0x300 + 1) ≤ 9 ∧
        r.state.memory (0x300 + 2) ≤ 9) ∧
      100 * r.state.memory 0x300 + 10 * r.state.memory (0x300 + 1) + r.state.memory (0x300 + 2)
        = 234 ∧
      (∀ a, a ≠ 0x300 → a ≠ 0x300 + 1 → a ≠ 0x300 + 2 →
        r.state.memory a = bcdDemo.memory a) ∧
      r.state.V = bcdDemo.V ∧ r.state.I = bcdDemo.I :=
  C9_bcd_digits idleHost 0 bcdDemo 3 (by decide) (by decide) (by decide) (by decide)

/-- A scancode that is none of the 16 keybinds leaves the inner loop of the
key wait without a match. -/
theorem scanKeys_unbound (sc x : Nat) (s : Machine) (hsc : sc ∉ keybinds) :
    scanKeys sc x 16 0 s = (false, s) := by
  simp only [keybinds, List.mem_cons, List.mem_singleton, List.not_mem_nil, or_false,
    not_or] at hsc
  obtain ⟨k0, k1, k2, k3, k4, k5, k6, k7, k8, k9, k10, k11, k12, k13, k14, k15⟩ := hsc
  simp [scanKeys, keybinds, k0, k1, k2, k3, k4, k5, k6, k7, k8, k9, k10, k11, k12, k13, k14,
    k15]

/-- The scancode `keybinds[i]` is matched at index `i` (the table has no
repeated entry), which is stored in `V[x]`. -/
theorem scanKeys_bound (i x : Nat) (s : Machine) (hi : i < 16) :
    scanKeys (keybinds.getD i 0) x 16 0 s = (true, setV s x i) := by
  interval_cases i <;> simp [scanKeys, keybinds]

theorem pollKeys_none (x : Nat) : ∀ (evs : List SDL_Event) (s : Machine),
    (∀ ev ∈ evs, ev.type = SDL_KEYDOWN → ev.scancode ∉ keybinds) →
    pollKeys x evs s = (false, s, []) := by
  intro evs
  induction evs with
  | nil => intro s _; rfl
  | cons ev rest ih =>
    intro s hev
    have hrest := ih s (fun e he => hev e (List.mem_cons_of_mem _ he))
    by_cases ht : ev.type = SDL_KEYDOWN
    · have := scanKeys_unbound ev.scancode x s (hev ev (List.mem_cons_self _ _) ht)
      simp only [pollKeys, ht, if_true, this, hrest]
    · simp only [pollKeys, ht, if_false, hrest]

theorem pollKeys_found (x i : Nat) (hi : i < 16) (ev : SDL_Event) (post : List SDL_Event)
    (ht : ev.type = SDL_KEYDOWN) (hsc : ev.scancode = keybinds.getD i 0) :
    ∀ (pre : List SDL_Event) (s : Machine),
    (∀ e ∈ pre, e.type = SDL_KEYDOWN → e.scancode ∉ keybinds) →
    pollKeys x (pre ++ ev :: post) s = (true, setV s x i, post) := by
  intro pre
  induction pre with
  | nil =>
    intro s _
    simp only [List.nil_append, pollKeys, ht, if_true, hsc, scanKeys_bound i x s hi]
  | cons e rest ih =>
    intro s hpre
    have hrest := ih s (fun e' he => hpre e' (List.mem_cons_of_mem _ he))
    by_cases hte : e.type = SDL_KEYDOWN
    · have := scanKeys_unbound e.scancode x s (hpre e (List.mem_cons_self _ _) hte)
      rw [List.cons_append, pollKeys]
      simp only [hte, if_true, this]
      exact hrest
    · rw [List.cons_append, pollKeys]
      simp only [hte, if_false]
      exact hrest

theorem cycle_waitKey (h : Host) (dt : ℚ) (s : Machine) (X : Nat) (hX : X ≤ 15)
    (hop : fetch s = some (0xF00A + 0x100 * X)) :
    CHIP8_EMULATECYCLE h dt s =
      finish (pollKeys X h.events { timerAdvance dt s with opcode := 0xF00A + 0x100 * X }).1
        (pollKeys X h.events { timerAdvance dt s with opcode := 0xF00A + 0x100 * X }).2.1
        (pollKeys X h.events { timerAdvance dt s with opcode := 0xF00A + 0x100 * X }).2.2 := by
  obtain ⟨h1, h2, -, -, -, h6, -⟩ := decode_nibbles 15 X 0 10 (by omega) (by omega) (by omega)
    (by omega)
  have e : 15 * 4096 + X * 256 + 0 * 16 + 10 = 0xF00A + 0x100 * X := by omega
  rw [e] at h1 h2 h6
  generalize 0xF00A + 0x100 * X = op at hop h1 h2 h6
  rw [cycle_familyF h dt hop h1]
  simp [familyF, h6, op_waitKey, h2]

/-- C10: with the opcode `FX0A` at `pc` and the host queue as a list of events.
If no queued event is a key-down with one of the 16 bound scancodes, the cycle
returns 0 and leaves `pc` and every register unchanged, so the next cycle
fetches the same instruction. If the first key-down with a bound scancode is
for `keybinds[i]`, the cycle returns 0, sets `VX = i`, keeps the other
registers, advances `pc` by exactly 2 and leaves the later events queued. -/
theorem C10_wait_for_key (h : Host) (dt : ℚ) (s : Machine) (X : Nat) (hX : X ≤ 15)
    (hop : fetch s = some (0xF00A + 0x100 * X)) :
    ((∀ ev ∈ h.events, ev.type = SDL_KEYDOWN → ev.scancode ∉ keybinds) →
      ∃ r, CHIP8_EMULATECYCLE h dt s = some r ∧ r.code = 0 ∧ r.state.pc = s.pc ∧
        r.state.V = s.V ∧ fetch r.state = fetch s) ∧
    (∀ (pre : List SDL_Event) (ev : SDL_Event) (post : List SDL_Event) (i : Nat),
      h.events = pre ++ ev :: post →
      (∀ e ∈ pre, e.type = SDL_KEYDOWN → e.scancode ∉ keybinds) →
      ev.type = SDL_KEYDOWN → i < 16 → ev.scancode = keybinds.getD i 0 →
      ∃ r, CHIP8_EMULATECYCLE h dt s = some r ∧ r.code = 0 ∧ r.state.V X = i ∧
        (∀ k, k ≠ X → r.state.V k = s.V k) ∧ r.state.pc = s.pc + 2 ∧ r.events = post) := by
  have hpc := fetch_bound hop
  obtain ⟨hM, hp, hV, -⟩ := timerAdvance_frame dt s
  have hm : (s.pc + 2) % 65536 = s.pc + 2 := by omega
  constructor
  · intro hnone
    refine ⟨_, cycle_waitKey h dt s X hX hop, ?_, ?_, ?_, ?_⟩
    · rfl
    · simp [pollKeys_none X h.events _ hnone, hp]
    · simp [pollKeys_none X h.events _ hnone, hV]
    · apply fetch_congr
      · simp [pollKeys_none X h.events _ hnone, hM]
      · simp [pollKeys_none X h.events _ hnone, hp]
  · intro pre ev post i hev hpre ht hi hsc
    refine ⟨_, cycle_waitKey h dt s X hX hop, ?_, ?_, ?_, ?_, ?_⟩
    · rfl
    · simp [hev, pollKeys_found X i hi ev post ht hsc pre _ hpre, setV, upd_same]
    · intro k hk
      simp [hev, pollKeys_found X i hi ev post ht hsc pre _ hpre, setV, upd_ne hk, hV]
    · simp [hev, pollKeys_found X i hi ev post ht hsc pre _ hpre, setV, hp, hm]
    · simp [finish, hev, pollKeys_found X i hi ev post ht hsc pre _ hpre]

/-- Witness for C10: `waitKey` run once on an empty queue, and once on the queue
of `keyHost`, whose first bound key-down is `W`, `keybinds[5]`. -/
theorem C10_wait_for_key_witness :
    (∃ r, CHIP8_EMULATECYCLE idleHost 0 waitKey = some r ∧ r.code = 0 ∧
      r.state.pc = waitKey.pc ∧ r.state.V = waitKey.V ∧ fetch r.state = fetch waitKey) ∧
    (∃ r, CHIP8_EMULATECYCLE keyHost 0 waitKey = some r ∧ r.code = 0 ∧ r.state.V 3 = 5 ∧
      (∀ k, k ≠ 3 → r.state.V k = waitKey.V k) ∧ r.state.pc = waitKey.pc + 2 ∧
      r.events = [⟨SDL_KEYDOWN, 27⟩]) :=
  ⟨(C10_wait_for_key idleHost 0 waitKey 3 (by decide) (by decide)).1
      (fun _ hev => absurd hev (List.not_mem_nil _)),
   (C10_wait_for_key keyHost 0 waitKey 3 (by decide) (by decide)).2
      [⟨0x301, 27⟩, ⟨SDL_KEYDOWN, 99⟩] ⟨SDL_KEYDOWN, 26⟩ [⟨SDL_KEYDOWN, 27⟩] 5 rfl
      (by
        intro e he
        simp only [List.mem_cons, List.mem_singleton, List.not_mem_nil, or_false] at he
        rcases he with rfl | rfl
        · intro ht; exact absurd ht (by decide)
        · intro _; decide)
      rfl (by decide) rfl⟩

/-! ## Initialisation (claims C11, C14, C15) -/

/-- Bytes that fit are stored at consecutive indices; nothing else changes. -/
theorem storeBytes_spec (size : Nat) : ∀ (l : List Nat) (i : Nat) (a : Nat → Nat),
    i + l.length ≤ size →
    storeBytes size l i a =
      some (fun j => if i ≤ j ∧ j < i + l.length then l.getD (j - i) 0 else a j) := by
  intro l
  induction l with
  | nil =>
    intro i a _
    rw [storeBytes]
    congr 1
    funext j
    have : ¬ (i ≤ j ∧ j < i + ([] : List Nat).length) := by
      simp only [List.length_nil]; omega
    rw [if_neg this]
  | cons b rest ih =>
    intro i a hlen
    simp only [List.length_cons] at hlen
    have hi : i < size := by omega
    rw [storeBytes, wr_of_lt hi]
    simp only
    rw [ih (i + 1) (upd a i b) (by omega)]
    congr 1
    funext j
    simp only [List.length_cons]
    by_cases h1 : j = i
    · subst h1
      have c1 : ¬ (j + 1 ≤ j ∧ j < j + 1 + rest.length) := by omega
      have c2 : j ≤ j ∧ j < j + (rest.length + 1) := by omega
      rw [if_neg c1, if_pos c2, upd_same, Nat.sub_self, List.getD_cons_zero]
    · by_cases h2 : i + 1 ≤ j ∧ j < i + 1 + rest.length
      · have c2 : i ≤ j ∧ j < i + (rest.length + 1) := by omega
        rw [if_pos h2, if_pos c2, show j - i = (j - (i + 1)) + 1 by omega, List.getD_cons_succ]
      · have c2 : ¬ (i ≤ j ∧ j < i + (rest.length + 1)) := by omega
        rw [if_neg h2, if_neg c2, upd_ne h1]

/-- Bytes that do not fit make the store run past the end of the array. -/
theorem storeBytes_oob (size : Nat) : ∀ (l : List Nat) (i : Nat) (a : Nat → Nat),
    size < i + l.length → i ≤ size → storeBytes size l i a = none := by
  intro l
  induction l with
  | nil => intro i a h1 h2; simp only [List.length_nil] at h1; omega
  | cons b rest ih =>
    intro i a h1 h2
    simp only [List.length_cons] at h1
    rw [storeBytes]
    by_cases hi : i < size
    · rw [wr_of_lt hi]
      exact ih (i + 1) (upd a i b) (by omega) (by omega)
    · simp [wr, hi]

theorem fontset_take : chip8_fontset.take FONTSETSIZE = chip8_fontset := by decide

theorem fontset_length : chip8_fontset.length = 80 := by decide

/-- Initialisation with a program file of at most 3584 bytes: the call returns 0
and every global but `accumulator` and `key` has the value written out here. -/
theorem initialize_ok (image : List Nat) (s : Machine) (hlen : image.length ≤ 3584) :
    CHIP8_INITIALIZE (some image) s =
      some (0, { s with
        pc := 0x200, opcode := 0, I := 0, sp := 0,
        gfx := memset0 s.gfx (SCREENX * SCREENY),
        stack := memsetWide s.stack 2 STACKSIZE,
        V := memset0 s.V REGISTERCOUNT,
        memory := fun j =>
          if 0x200 ≤ j ∧ j < 0x200 + image.length then image.getD (j - 0x200) 0
          else if 0 ≤ j ∧ j < 0 + chip8_fontset.length then chip8_fontset.getD (j - 0) 0
          else memset0 s.memory MEMORYSIZE j,
        delay_timer := 0, sound_timer := 0 }) := by
  have htake : image.take 3896 = image := List.take_of_length_le (by omega)
  have hfont := storeBytes_spec MEMORYSIZE chip8_fontset 0 (memset0 s.memory MEMORYSIZE)
    (by rw [fontset_length]; decide)
  simp only [CHIP8_INITIALIZE, fontset_take, hfont, htake]
  rw [storeBytes_spec MEMORYSIZE image 0x200 _ (by unfold MEMORYSIZE; omega)]

/-- Initialisation with a program file of more than 3584 bytes stores a byte
past the end of `memory`. -/
theorem initialize_oob (image : List Nat) (s : Machine) (hlen : 3584 < image.length) :
    CHIP8_INITIALIZE (some image) s = none := by
  have hfont := storeBytes_spec MEMORYSIZE chip8_fontset 0 (memset0 s.memory MEMORYSIZE)
    (by rw [fontset_length]; decide)
  have hl : MEMORYSIZE < 0x200 + (image.take 3896).length := by
    rw [List.length_take]; unfold MEMORYSIZE; omega
  simp only [CHIP8_INITIALIZE, fontset_take, hfont]
  rw [storeBytes_oob MEMORYSIZE (image.take 3896) 0x200 _ hl (by decide)]

/-- C11 (amended): for every program image of at most 3584 bytes (3584
included) `CHIP8_INITIALIZE` returns 0 and stores byte `i` of the image at
`memory[0x200 + i]`; outside `memory[0x200 .. 0x200+len-1]` the memory is what
loading an empty file leaves, so no image byte lands outside
`memory[0x200..0xFFF]`, and nothing past the end of `memory` is written. -/
theorem C11_load_within_memory (image : List Nat) (s : Machine)
    (hlen : image.length ≤ 3584) :
    ∃ s1 s0, CHIP8_INITIALIZE (some image) s = some (0, s1) ∧
      CHIP8_INITIALIZE (some []) s = some (0, s0) ∧
      (∀ i, i < image.length → s1.memory (0x200 + i) = image.getD i 0) ∧
      (∀ a, ¬ (0x200 ≤ a ∧ a < 0x200 + image.length) → s1.memory a = s0.memory a) ∧
      (∀ a, 4096 ≤ a → s1.memory a = s.memory a) := by
  refine ⟨_, _, initialize_ok image s hlen, initialize_ok [] s (by simp), ?_, ?_, ?_⟩
  · intro i hi
    have c : 0x200 ≤ 0x200 + i ∧ 0x200 + i < 0x200 + image.length := by omega
    simp only [if_pos c, Nat.add_sub_cancel_left]
  · intro a ha
    have c : ¬ (0x200 ≤ a ∧ a < 0x200 + ([] : List Nat).length) := by
      simp only [List.length_nil]; omega
    simp only [if_neg ha, if_neg c]
  · intro a ha
    have c1 : ¬ (0x200 ≤ a ∧ a < 0x200 + image.length) := by omega
    have c2 : ¬ (0 ≤ a ∧ a < 0 + chip8_fontset.length) := by rw [fontset_length]; omega
    have c3 : ¬ a < MEMORYSIZE := by unfold MEMORYSIZE; omega
    simp only [if_neg c1, if_neg c2, memset0, if_neg c3]

/-- Witness for C11: an image of exactly 3584 bytes. -/
theorem C11_load_within_memory_witness :
    ∃ s1 s0, CHIP8_INITIALIZE (some (List.replicate 3584 0xAB)) usedStack = some (0, s1) ∧
      CHIP8_INITIALIZE (some []) usedStack = some (0, s0) ∧
      (∀ i, i < (List.replicate 3584 0xAB).length →
        s1.memory (0x200 + i) = (List.replicate 3584 0xAB).getD i 0) ∧
      (∀ a, ¬ (0x200 ≤ a ∧ a < 0x200 + (List.replicate 3584 0xAB).length) →
        s1.memory a = s0.memory a) ∧
      (∀ a, 4096 ≤ a → s1.memory a = usedStack.memory a) :=
  C11_load_within_memory (List.replicate 3584 0xAB) usedStack
    (by rw [List.length_replicate])

/-- C11 as stated fails: an image of 3585 bytes is not rejected with a failure
code. The copy stores its last byte at `memory[4096]`, past the end of the
array, so the call has no defined result. -/
theorem C11_oversized_image_not_rejected :
    CHIP8_INITIALIZE (some (List.replicate 3585 0xAB)) blank = none ∧
    ¬ ∃ c s1, CHIP8_INITIALIZE (some (List.replicate 3585 0xAB)) blank = some (c, s1) ∧
      c ≠ 0 := by
  have h := initialize_oob (List.replicate 3585 0xAB) blank
    (by rw [List.length_replicate]; decide)
  refine ⟨h, ?_⟩
  rintro ⟨c, s1, hc, -⟩
  rw [h] at hc
  exact absurd hc (by simp)

/-- C14: for every prior state and every program image of at most 3584 bytes,
`CHIP8_INITIALIZE` returns 0 and leaves `pc = 0x200`, `I = 0`, `sp = 0`, the 16
registers 0, both timers 0, every framebuffer pixel 0, `memory[a]` equal to
`chip8_fontset[a]` for `a < 80`, `memory[0x200 + i]` equal to byte `i` of the
image, and every other memory byte 0. -/
theorem C14_initialize_state (image : List Nat) (s : Machine)
    (hlen : image.length ≤ 3584) :
    ∃ s1, CHIP8_INITIALIZE (some image) s = some (0, s1) ∧
      s1.pc = 0x200 ∧ s1.I = 0 ∧ s1.sp = 0 ∧
      (∀ k, k < 16 → s1.V k = 0) ∧
      s1.delay_timer = 0 ∧ s1.sound_timer = 0 ∧
      (∀ p, p < SCREENX * SCREENY → s1.gfx p = 0) ∧
      (∀ a, a < 80 → s1.memory a = chip8_fontset.getD a 0) ∧
      (∀ i, i < image.length → s1.memory (0x200 + i) = image.getD i 0) ∧
      (∀ a, a < 4096 → 80 ≤ a → ¬ (0x200 ≤ a ∧ a < 0x200 + image.length) →
        s1.memory a = 0) := by
  refine ⟨_, initialize_ok image s hlen, rfl, rfl, rfl, ?_, rfl, rfl, ?_, ?_, ?_, ?_⟩
  · intro k hk
    simp only [memset0, REGISTERCOUNT, if_pos hk]
  · intro p hp
    simp only [memset0, if_pos hp]
  · intro a ha
    have c1 : ¬ (0x200 ≤ a ∧ a < 0x200 + image.length) := by omega
    have c2 : 0 ≤ a ∧ a < 0 + chip8_fontset.length := by rw [fontset_length]; omega
    simp only [if_neg c1, if_pos c2, Nat.sub_zero]
  · intro i hi
    have c : 0x200 ≤ 0x200 + i ∧ 0x200 + i < 0x200 + image.length := by omega
    simp only [if_pos c, Nat.add_sub_cancel_left]
  · intro a ha h80 hout
    have c2 : ¬ (0 ≤ a ∧ a < 0 + chip8_fontset.length) := by rw [fontset_length]; omega
    have c3 : a < MEMORYSIZE := by unfold MEMORYSIZE; omega
    simp only [if_neg hout, if_neg c2, memset0, if_pos c3]

/-- Witness for C14: the two-byte image `12 00` loaded over the globals of
`usedStack`. -/
theorem C14_initialize_state_witness :
    ∃ s1, CHIP8_INITIALIZE (some [0x12, 0x00]) usedStack = some (0, s1) ∧
      s1.pc = 0x200 ∧ s1.I = 0 ∧ s1.sp = 0 ∧
      (∀ k, k < 16 → s1.V k = 0) ∧
      s1.delay_timer = 0 ∧ s1.sound_timer = 0 ∧
      (∀ p, p < SCREENX * SCREENY → s1.gfx p = 0) ∧
      (∀ a, a < 80 → s1.memory a = chip8_fontset.getD a 0) ∧
      (∀ i, i < [0x12, 0x00].length → s1.memory (0x200 + i) = [0x12, 0x00].getD i 0) ∧
      (∀ a, a < 4096 → 80 ≤ a → ¬ (0x200 ≤ a ∧ a < 0x200 + [0x12, 0x00].length) →
        s1.memory a = 0) :=
  C14_initialize_state [0x12, 0x00] usedStack (by decide)

/-- C15, evaluated where it fails: initialisation over the globals of
`usedStack`, whose 16 stack entries all hold `0x234`. The byte count 16 of
`memset(stack, 0, STACKSIZE)` covers the entries 0..7 only; the entries 8..15
keep `0x234`. -/
theorem C15_initialize_keeps_upper_stack :
    ∃ s1, CHIP8_INITIALIZE (some []) usedStack = some (0, s1) ∧
      (∀ i, i < 8 → s1.stack i = 0) ∧
      (∀ i, 8 ≤ i → i < 16 → s1.stack i = 0x234) ∧ s1.stack 8 ≠ 0 := by
  refine ⟨_, initialize_ok [] usedStack (by simp), ?_, ?_, ?_⟩
  · intro i hi
    have c : i < STACKSIZE / 2 := by unfold STACKSIZE; omega
    simp only [memsetWide, if_pos c]
  · intro i hi _
    have c : ¬ i < STACKSIZE / 2 := by unfold STACKSIZE; omega
    simp only [memsetWide, if_neg c]
    rfl
  · decide

/-! ## Return codes and the halt word (claim C12) -/

theorem finish_code {b : Bool} {s : Machine} {ev : List SDL_Event} {r : Result}
    (h : finish b s ev = some r) : r.code = 0 := by
  simp only [finish, Option.some.injEq] at h
  rw [← h]

theorem op_return_code {s : Machine} {ev : List SDL_Event} {r : Result}
    (h : op_return s ev = some r) : r.code = 0 ∨ r.code = 2 := by
  unfold op_return at h
  split at h
  · simp at h
  · simp only at h
    split at h
    · simp at h
    · split at h
      · simp only [Option.some.injEq] at h; rw [← h]; exact Or.inr rfl
      · exact Or.inl (finish_code h)

theorem op_call_code {op : Nat} {s : Machine} {ev : List SDL_Event} {r : Result}
    (h : op_call op s ev = some r) : r.code = 0 ∨ r.code = 2 := by
  unfold op_call at h
  split at h
  · simp only [Option.some.injEq] at h; rw [← h]; exact Or.inr rfl
  · split at h
    · simp at h
    · exact Or.inl (finish_code h)

theorem family0_code {op : Nat} {s : Machine} {ev : List SDL_Event} {r : Result}
    (h : family0 op s ev = some r) : r.code = 0 ∨ r.code = 2 := by
  unfold family0 at h
  split at h
  · exact Or.inl (finish_code h)
  · split at h
    · exact op_return_code h
    · exact Or.inl (finish_code h)

theorem family8_code {op : Nat} {s : Machine} {ev : List SDL_Event} {r : Result}
    (h : family8 op s ev = some r) : r.code = 0 := by
  unfold family8 at h
  split_ifs at h
  all_goals exact finish_code h

theorem op_draw_code {op : Nat} {s : Machine} {ev : List SDL_Event} {r : Result}
    (h : op_draw op s ev = some r) : r.code = 0 := by
  unfold op_draw at h
  split at h
  · exact finish_code h
  · simp at h

theorem familyE_code {hst : Host} {op : Nat} {s : Machine} {ev : List SDL_Event} {r : Result}
    (h : familyE hst op s ev = some r) : r.code = 0 := by
  unfold familyE at h
  repeat' split at h
  all_goals first | exact finish_code h | simp at h

theorem familyF_code {op : Nat} {s : Machine} {ev : List SDL_Event} {r : Result}
    (h : familyF op s ev = some r) : r.code = 0 := by
  unfold familyF op_waitKey op_bcd at h
  repeat' split at h
  all_goals first | exact finish_code h | simp at h

/-- The outer switch only ever returns 0 or 2. -/
theorem execute_code {hst : Host} {op : Nat} {s : Machine} {r : Result}
    (h : execute hst op s = some r) : r.code = 0 ∨ r.code = 2 := by
  unfold execute at h
  by_cases c0 : op &&& 0xF000 = 0x0000
  · rw [if_pos c0] at h; exact family0_code h
  rw [if_neg c0] at h
  by_cases c1 : op &&& 0xF000 = 0x1000
  · rw [if_pos c1] at h; exact Or.inl (@finish_code false _ _ _ h)
  rw [if_neg c1] at h
  by_cases c2 : op &&& 0xF000 = 0x2000
  · rw [if_pos c2] at h; exact op_call_code h
  rw [if_neg c2] at h
  by_cases c3 : op &&& 0xF000 = 0x3000
  · rw [if_pos c3] at h; exact Or.inl (@finish_code true _ _ _ h)
  rw [if_neg c3] at h
  by_cases c4 : op &&& 0xF000 = 0x4000
  · rw [if_pos c4] at h; exact Or.inl (@finish_code true _ _ _ h)
  rw [if_neg c4] at h
  by_cases c5 : op &&& 0xF000 = 0x5000
  · rw [if_pos c5] at h; exact Or.inl (@finish_code true _ _ _ h)
  rw [if_neg c5] at h
  by_cases c6 : op &&& 0xF000 = 0x6000
  · rw [if_pos c6] at h; exact Or.inl (@finish_code true _ _ _ h)
  rw [if_neg c6] at h
  by_cases c7 : op &&& 0xF000 = 0x7000
  · rw [if_pos c7] at h; exact Or.inl (@finish_code true _ _ _ h)
  rw [if_neg c7] at h
  by_cases c8 : op &&& 0xF000 = 0x8000
  · rw [if_pos c8] at h; exact Or.inl (family8_code h)
  rw [if_neg c8] at h
  by_cases c9 : op &&& 0xF000 = 0x9000
  · rw [if_pos c9] at h; exact Or.inl (@finish_code true _ _ _ h)
  rw [if_neg c9] at h
  by_cases c10 : op &&& 0xF000 = 0xA000
  · rw [if_pos c10] at h; exact Or.inl (@finish_code true _ _ _ h)
  rw [if_neg c10] at h
  by_cases c11 : op &&& 0xF000 = 0xB000
  · rw [if_pos c11] at h; exact Or.inl (@finish_code false _ _ _ h)
  rw [if_neg c11] at h
  by_cases c12 : op &&& 0xF000 = 0xC000
  · rw [if_pos c12] at h; exact Or.inl (@finish_code true _ _ _ h)
  rw [if_neg c12] at h
  by_cases c13 : op &&& 0xF000 = 0xD000
  · rw [if_pos c13] at h; exact Or.inl (op_draw_code h)
  rw [if_neg c13] at h
  by_cases c14 : op &&& 0xF000 = 0xE000
  · rw [if_pos c14] at h; exact Or.inl (familyE_code h)
  rw [if_neg c14] at h
  by_cases c15 : op &&& 0xF000 = 0xF000
  · rw [if_pos c15] at h; exact Or.inl (familyF_code h)
  rw [if_neg c15] at h
  exact Or.inl (finish_code h)

/-- A cycle whose fetched word is zero returns 1 right after the fetch. -/
theorem cycle_halt (h : Host) (dt : ℚ) {s : Machine} (hf : fetch s = some 0) :
    CHIP8_EMULATECYCLE h dt s = some ⟨1, { timerAdvance dt s with opcode := 0 }, h.events⟩ := by
  have hf' := fetch_timerAdvance dt s
  rw [hf] at hf'
  simp only [CHIP8_EMULATECYCLE, hf', if_true]

/-- A cycle whose fetch leaves `memory` has no defined result. -/
theorem cycle_fetch_oob (h : Host) (dt : ℚ) {s : Machine} (hf : fetch s = none) :
    CHIP8_EMULATECYCLE h dt s = none := by
  have hf' := fetch_timerAdvance dt s
  rw [hf] at hf'
  simp only [CHIP8_EMULATECYCLE, hf']

/-- C12: the cycle returns the halt code 1 exactly when the word fetched at `pc`
is `0x0000`; in that case `pc`, `sp`, the stack, `I`, the registers, memory and
the framebuffer are unchanged. -/
theorem C12_halt_iff_zero_word (h : Host) (dt : ℚ) (s : Machine) :
    ((∃ r, CHIP8_EMULATECYCLE h dt s = some r ∧ r.code = 1) ↔ fetch s = some 0) ∧
    (fetch s = some 0 →
      ∃ r, CHIP8_EMULATECYCLE h dt s = some r ∧ r.code = 1 ∧
        r.state.pc = s.pc ∧ r.state.sp = s.sp ∧ r.state.stack = s.stack ∧
        r.state.I = s.I ∧ r.state.V = s.V ∧ r.state.memory = s.memory ∧
        r.state.gfx = s.gfx) := by
  obtain ⟨hM, hp, hV, hI, hG, hst, hsp, -⟩ := timerAdvance_frame dt s
  constructor
  · constructor
    · rintro ⟨r, hr, hc⟩
      cases hf : fetch s with
      | none => rw [cycle_fetch_oob h dt hf] at hr; exact absurd hr (by simp)
      | some op =>
        by_cases h0 : op = 0
        · rw [h0]
        · rw [cycle_eq h dt hf h0] at hr
          rcases execute_code hr with h1 | h1 <;> rw [h1] at hc <;> exact absurd hc (by decide)
    · intro hf
      exact ⟨_, cycle_halt h dt hf, rfl⟩
  · intro hf
    exact ⟨_, cycle_halt h dt hf, rfl, hp, hsp, hst, hI, hV, hM, hG⟩

/-- Witness for C12: in `blank` the word at `pc = 0x200` is zero. -/
theorem C12_halt_iff_zero_word_witness :
    ∃ r, CHIP8_EMULATECYCLE idleHost 0 blank = some r ∧ r.code = 1 ∧
      r.state.pc = blank.pc ∧ r.state.sp = blank.sp ∧ r.state.stack = blank.stack ∧
      r.state.I = blank.I ∧ r.state.V = blank.V ∧ r.state.memory = blank.memory ∧
      r.state.gfx = blank.gfx :=
  (C12_halt_iff_zero_word idleHost 0 blank).2 (by decide)

/-! ## Words without an instruction (claim C13) -/

theorem fetch_lt {s : Machine} {op : Nat} (hf : fetch s = some op) : op < 65536 := by
  unfold fetch at hf
  split at hf
  · simp only [Option.some.injEq] at hf
    omega
  · simp at hf

/-- The words that fall through to a `default:` label of an inner switch: the
cycle only advances `pc`. In family `0x0` these are the words whose low nibble
is neither `0` nor `0xE`, since the inner switch looks at the low nibble only. -/
theorem cycle_default (h : Host) (dt : ℚ) (s : Machine) (op : Nat)
    (hop : fetch s = some op)
    (hundef :
      (op / 4096 = 0 ∧ op % 16 ≠ 0 ∧ op % 16 ≠ 14) ∨
      (op / 4096 = 8 ∧ 8 ≤ op % 16 ∧ op % 16 ≠ 14) ∨
      (op / 4096 = 14 ∧ op % 256 ≠ 0x9E ∧ op % 256 ≠ 0xA1) ∨
      (op / 4096 = 15 ∧ op % 256 ∉ [0x07, 0x0A, 0x15, 0x18, 0x1E, 0x29, 0x33, 0x55, 0x65])) :
    CHIP8_EMULATECYCLE h dt s = finish true { timerAdvance dt s with opcode := op } h.events := by
  have hlt := fetch_lt hop
  have hF := and_F000 op
  have h4 := and_000F op
  have h8 := and_00FF op
  have h0 : op ≠ 0 := by
    rintro rfl
    rcases hundef with h | h | h | h <;> omega
  rw [cycle_eq h dt hop h0]
  rcases hundef with ⟨hf, n0, n14⟩ | ⟨hf, n8, n14⟩ | ⟨hf, n1, n2⟩ | ⟨hf, hn⟩
  · have e : op &&& 0xF000 = 0 := by rw [hF, hf]
    simp only [execute, e, if_true, family0, h4, if_neg n0, if_neg n14]
  · have e : op &&& 0xF000 = 0x8000 := by rw [hF, hf]
    have m0 : op % 16 ≠ 0 := by omega
    have m1 : op % 16 ≠ 1 := by omega
    have m2 : op % 16 ≠ 2 := by omega
    have m3 : op % 16 ≠ 3 := by omega
    have m4 : op % 16 ≠ 4 := by omega
    have m5 : op % 16 ≠ 5 := by omega
    have m6 : op % 16 ≠ 6 := by omega
    have m7 : op % 16 ≠ 7 := by omega
    simp [execute, e, family8, h4, m0, m1, m2, m3, m4, m5, m6, m7, n14]
  · have e : op &&& 0xF000 = 0xE000 := by rw [hF, hf]
    simp [execute, e, familyE, h8, n1, n2]
  · have e : op &&& 0xF000 = 0xF000 := by rw [hF, hf]
    simp only [List.mem_cons, List.mem_singleton, List.not_mem_nil, or_false, not_or] at hn
    obtain ⟨k1, k2, k3, k4, k5, k6, k7, k8, k9⟩ := hn
    simp [execute, e, familyF, h8, k1, k2, k3, k4, k5, k6, k7, k8, k9]

/-- C13 (amended): for every word fetched at `pc` that reaches a `default:` label
(family `0x0` with low nibble neither `0` nor `0xE`; family `0x8` with low nibble
`8..0xD` or `0xF`; family `0xE` with low byte neither `9E` nor `A1`; family `0xF`
with low byte none of `07 0A 15 18 1E 29 33 55 65`) one cycle is a no-op: it
returns 0, advances `pc` by exactly 2 and leaves the registers, `I`, `sp`, the
stack, memory and the framebuffer unchanged. -/
theorem C13_default_is_noop (h : Host) (dt : ℚ) (s : Machine) (op : Nat)
    (hop : fetch s = some op)
    (hundef :
      (op / 4096 = 0 ∧ op % 16 ≠ 0 ∧ op % 16 ≠ 14) ∨
      (op / 4096 = 8 ∧ 8 ≤ op % 16 ∧ op % 16 ≠ 14) ∨
      (op / 4096 = 14 ∧ op % 256 ≠ 0x9E ∧ op % 256 ≠ 0xA1) ∨
      (op / 4096 = 15 ∧ op % 256 ∉ [0x07, 0x0A, 0x15, 0x18, 0x1E, 0x29, 0x33, 0x55, 0x65])) :
    ∃ r, CHIP8_EMULATECYCLE h dt s = some r ∧ r.code = 0 ∧ r.state.pc = s.pc + 2 ∧
      r.state.V = s.V ∧ r.state.I = s.I ∧ r.state.sp = s.sp ∧ r.state.stack = s.stack ∧
      r.state.memory = s.memory ∧ r.state.gfx = s.gfx := by
  obtain ⟨hM, hp, hV, hI, hG, hst, hsp, -⟩ := timerAdvance_frame dt s
  have hpc := fetch_bound hop
  refine ⟨_, cycle_default h dt s op hop hundef, rfl, ?_, hV, hI, hsp, hst, hM, hG⟩
  simp only [if_true, hp]
  omega

/-- Witness for C13: the word `8128` (family `0x8`, low nibble 8) at `0x200`. -/
theorem C13_default_is_noop_witness :
    ∃ r, CHIP8_EMULATECYCLE idleHost 0
        { blank with memory := program [0x81, 0x28], V := cells [0, 7, 9] } = some r ∧
      r.code = 0 ∧ r.state.pc = 0x200 + 2 ∧
      r.state.V = cells [0, 7, 9] ∧ r.state.I = 0 ∧ r.state.sp = 0 ∧
      r.state.stack = blank.stack ∧ r.state.memory = program [0x81, 0x28] ∧
      r.state.gfx = blank.gfx :=
  C13_default_is_noop idleHost 0
    { blank with memory := program [0x81, 0x28], V := cells [0, 7, 9] } 0x8128
    (by decide) (Or.inr (Or.inl (by decide)))

/-- Any word of family `0x0` whose low nibble is 0 runs the clear-screen case. -/
theorem cycle_clear (h : Host) (dt : ℚ) (s : Machine) (op : Nat)
    (hop : fetch s = some op) (h0 : op ≠ 0) (hf : op / 4096 = 0) (hn : op % 16 = 0) :
    CHIP8_EMULATECYCLE h dt s =
      op_clearScreen { timerAdvance dt s with opcode := op } h.events := by
  have e : op &&& 0xF000 = 0 := by rw [and_F000, hf]
  rw [cycle_eq h dt hop h0]
  simp only [execute, e, if_true, family0, and_000F, hn]

/-- C13 as stated fails: `0010` is a non-zero word of family `0x0` other than
`00E0` and `00EE`, yet the cycle clears the framebuffer (`gfx[0]` goes from 1
to 0). -/
theorem C13_stray_word_clears_screen :
    ∃ r, CHIP8_EMULATECYCLE idleHost 0 strayClear = some r ∧ r.code = 0 ∧
      strayClear.gfx 0 = 1 ∧ r.state.gfx 0 = 0 ∧ r.state.gfx ≠ strayClear.gfx := by
  have hc := cycle_clear idleHost 0 strayClear 0x0010 (by decide) (by decide) (by decide)
    (by decide)
  obtain ⟨-, -, -, -, hG, -⟩ := timerAdvance_frame 0 strayClear
  have hg0 : (memset0 strayClear.gfx (SCREENX * SCREENY)) 0 = 0 := by decide
  refine ⟨_, hc, rfl, by decide, ?_, ?_⟩
  · simp only [if_true, hG]; exact hg0
  · intro hcontra
    have := congrFun hcontra 0
    simp only [if_true, hG, hg0] at this
    exact absurd this (by decide)

/-! ## Addition with `VF` as operand (claim C16) -/

/-- What `8XF4` does for `X` in `0..14`: the carry of `VX + VF` is written to `VF`
first, and the sum stored in `VX` is then taken with that new `VF`. -/
theorem cycle_add_vf (h : Host) (dt : ℚ) (s : Machine) (X : Nat) (hX : X ≤ 14)
    (hop : fetch s = some (0x80F4 + 0x100 * X)) :
    ∃ r, CHIP8_EMULATECYCLE h dt s = some r ∧ r.code = 0 ∧
      r.state.V 0xF = (if s.V X + s.V 0xF > 255 then 1 else 0) ∧
      r.state.V X = (s.V X + (if s.V X + s.V 0xF > 255 then 1 else 0)) % 256 := by
  obtain ⟨h1, h2, h3, -, h5, -⟩ := decode_nibbles 8 X 15 4 (by omega) (by omega) (by omega)
    (by omega)
  have e : 8 * 4096 + X * 256 + 15 * 16 + 4 = 0x80F4 + 0x100 * X := by omega
  rw [e] at h1 h2 h3 h5
  generalize 0x80F4 + 0x100 * X = op at hop h1 h2 h3 h5
  obtain ⟨-, -, hV, -⟩ := timerAdvance_frame dt s
  rw [cycle_family8 h dt hop h1]
  have hXF : X ≠ 15 := by omega
  refine ⟨_, by simp only [family8, h5]; rfl, ?_, ?_, ?_⟩
  · simp [finish]
  · by_cases hc : s.V X + s.V 15 > 255 <;>
      simp [finish, op_addReg, setV, h2, h3, hV, hc, upd, hXF, hXF.symm]
  · by_cases hc : s.V X + s.V 15 > 255 <;>
      simp [finish, op_addReg, setV, h2, h3, hV, hc, upd, hXF, hXF.symm]

/-- C16, evaluated where it fails: `81F4` with `V1 = 10` and `VF = 100`. The sum
110 does not carry and `VF` becomes 0 as claimed, but `V1` is then computed with
that new `VF`: it stays 10 instead of `(10 + 100) mod 256 = 110`. -/
theorem C16_add_with_vf_operand_uses_new_flag :
    ∃ r, CHIP8_EMULATECYCLE idleHost 0 addVF = some r ∧ r.code = 0 ∧
      addVF.V 1 = 10 ∧ addVF.V 0xF = 100 ∧
      r.state.V 0xF = 0 ∧ r.state.V 1 = 10 ∧ r.state.V 1 ≠ (10 + 100) % 256 := by
  obtain ⟨r, hr, hc, hF, hX⟩ := cycle_add_vf idleHost 0 addVF 1 (by decide) (by decide)
  have h1 : addVF.V 1 = 10 := by decide
  have h15 : addVF.V 15 = 100 := by decide
  rw [h1, h15] at hF hX
  refine ⟨r, hr, hc, h1, h15, ?_, ?_, ?_⟩
  · rw [hF]; decide
  · rw [hX]; decide
  · rw [hX]; decide

/-! ## Sprite pixels and the collision flag (claims C17, C18) -/

theorem drawIndex_row_col (vx vy row col : Nat) (hc : col < 8) :
    drawIndex vx vy (8 * row + col) = (vy + row) * 64 + (vx + col) := by
  unfold drawIndex SCREENX
  rw [show (8 * row + col) / 8 = row by omega, show (8 * row + col) % 8 = col by omega]

theorem spriteBit_row_col (b row col : Nat) (hc : col < 8) :
    spriteBit b (8 * row + col) = b / 2 ^ (7 - col) % 2 := by
  rw [spriteBit_eq, show (8 * row + col) % 8 = col by omega]

/-- C17: for a draw `DXYN` with `X`, `Y` in `0..14`, the sprite fully on screen
(`VX + 7 <= 63`, `VY + N - 1 <= 31`) and in memory (`I + N - 1 <= 4095`): after
one cycle the pixel at `(VX + c, VY + r)` is its old value XOR bit `7 - c` of
`memory[I + r]` for every row `r < N` and column `c < 8`, every other pixel is
unchanged, and memory, `I` and the registers `V0..VE` are unchanged. -/
theorem C17_draw_xors_sprite_bits (h : Host) (dt : ℚ) (s : Machine) (X Y N : Nat)
    (hX : X ≤ 14) (hY : Y ≤ 14) (hN : N ≤ 15)
    (hop : fetch s = some (0xD000 + 0x100 * X + 0x10 * Y + N))
    (hx : s.V X + 7 ≤ 63) (hy : s.V Y + N - 1 ≤ 31) (hI : s.I + N - 1 ≤ 4095) :
    ∃ r, CHIP8_EMULATECYCLE h dt s = some r ∧ r.code = 0 ∧
      (∀ row col, row < N → col < 8 →
        r.state.gfx ((s.V Y + row) * 64 + (s.V X + col))
          = s.gfx ((s.V Y + row) * 64 + (s.V X + col))
              ^^^ (s.memory (s.I + row) / 2 ^ (7 - col) % 2)) ∧
      (∀ p, (∀ row col, row < N → col < 8 → p ≠ (s.V Y + row) * 64 + (s.V X + col)) →
        r.state.gfx p = s.gfx p) ∧
      r.state.memory = s.memory ∧ r.state.I = s.I ∧
      (∀ k, k < 15 → r.state.V k = s.V k) := by
  obtain ⟨hM, -, -, hI', -⟩ := timerAdvance_frame dt s
  obtain ⟨g, vf, heq, hset, hkeep, -, -⟩ := cycle_draw h dt s X Y N hX hY hN hop
    (by
      intro j hj
      unfold drawIndex SCREENX
      constructor <;> omega)
  refine ⟨_, heq, rfl, ?_, ?_, hM, hI', ?_⟩
  · intro row col hr hc
    have hj := hset (8 * row + col) (by omega)
    rw [drawIndex_row_col _ _ _ _ hc, show (8 * row + col) / 8 = row by omega,
      spriteBit_row_col _ _ _ hc] at hj
    exact hj
  · intro p hp
    apply hkeep
    intro j hj hpj
    apply hp (j / 8) (j % 8) (by omega) (by omega)
    rw [hpj, ← drawIndex_row_col _ _ _ _ (show j % 8 < 8 by omega),
      show 8 * (j / 8) + j % 8 = j by omega]
  · intro k hk
    exact upd_ne (by omega) vf

/-- Witness for C17: the two-row sprite of `innerSprite` drawn at `(10, 5)`. -/
theorem C17_draw_xors_sprite_bits_witness :
    ∃ r, CHIP8_EMULATECYCLE idleHost 0 innerSprite = some r ∧ r.code = 0 ∧
      (∀ row col, row < 2 → col < 8 →
        r.state.gfx ((innerSprite.V 1 + row) * 64 + (innerSprite.V 0 + col))
          = innerSprite.gfx ((innerSprite.V 1 + row) * 64 + (innerSprite.V 0 + col))
              ^^^ (innerSprite.memory (innerSprite.I + row) / 2 ^ (7 - col) % 2)) ∧
      (∀ p, (∀ row col, row < 2 → col < 8 →
          p ≠ (innerSprite.V 1 + row) * 64 + (innerSprite.V 0 + col)) →
        r.state.gfx p = innerSprite.gfx p) ∧
      r.state.memory = innerSprite.memory ∧ r.state.I = innerSprite.I ∧
      (∀ k, k < 15 → r.state.V k = innerSprite.V k) :=
  C17_draw_xors_sprite_bits idleHost 0 innerSprite 0 1 2 (by decide) (by decide) (by decide)
    (by decide) (by decide) (by decide) (by decide)

/-- C18: for a draw `DXYN` with `X`, `Y` in `0..14`, the sprite fully on screen
and in memory, and whatever `VF` held before: after one cycle `VF` is 1 exactly
when some row `r < N` and column `c < 8` has the old pixel at `(VX + c, VY + r)`
equal to 1 and bit `7 - c` of `memory[I + r]` equal to 1; otherwise `VF` is
0. -/
theorem C18_draw_collision_flag (h : Host) (dt : ℚ) (s : Machine) (X Y N : Nat)
    (hX : X ≤ 14) (hY : Y ≤ 14) (hN : N ≤ 15)
    (hop : fetch s = some (0xD000 + 0x100 * X + 0x10 * Y + N))
    (hx : s.V X + 7 ≤ 63) (hy : s.V Y + N - 1 ≤ 31) (hI : s.I + N - 1 ≤ 4095) :
    ∃ r, CHIP8_EMULATECYCLE h dt s = some r ∧ r.code = 0 ∧
      (r.state.V 0xF = 1 ↔
        ∃ row col, row < N ∧ col < 8 ∧
          s.gfx ((s.V Y + row) * 64 + (s.V X + col)) = 1 ∧
          s.memory (s.I + row) / 2 ^ (7 - col) % 2 = 1) ∧
      (r.state.V 0xF = 1 ∨ r.state.V 0xF = 0) := by
  obtain ⟨g, vf, heq, -, -, hhit, hmiss⟩ := cycle_draw h dt s X Y N hX hY hN hop
    (by
      intro j hj
      unfold drawIndex SCREENX
      constructor <;> omega)
  have hiff : vf = 1 ↔
      ∃ row col, row < N ∧ col < 8 ∧
        s.gfx ((s.V Y + row) * 64 + (s.V X + col)) = 1 ∧
        s.memory (s.I + row) / 2 ^ (7 - col) % 2 = 1 := by
    constructor
    · intro hv
      by_contra hno
      have h0 := hmiss (by
        intro j hj hc
        apply hno
        refine ⟨j / 8, j % 8, by omega, by omega, ?_, ?_⟩
        · rw [← drawIndex_row_col _ _ _ _ (show j % 8 < 8 by omega),
            show 8 * (j / 8) + j % 8 = j by omega]
          exact hc.1
        · rw [← spriteBit_row_col _ (j / 8) _ (show j % 8 < 8 by omega),
            show 8 * (j / 8) + j % 8 = j by omega]
          exact hc.2)
      rw [h0] at hv
      exact absurd hv (by decide)
    · rintro ⟨row, col, hr, hc, hp, hb⟩
      apply hhit (8 * row + col) (by omega)
      · rw [drawIndex_row_col _ _ _ _ hc]; exact hp
      · rw [show (8 * row + col) / 8 = row by omega, spriteBit_row_col _ _ _ hc]; exact hb
  have hor : vf = 1 ∨ vf = 0 := by
    by_cases hv : vf = 1
    · exact Or.inl hv
    · right
      apply hmiss
      intro j hj hc
      exact hv (hhit j hj hc.1 hc.2)
  refine ⟨_, heq, rfl, ?_, ?_⟩
  · simp only [upd_same]; exact hiff
  · simp only [upd_same]; exact hor

/-- Witness for C18: the two-row sprite of `innerSprite` drawn at `(10, 5)`. -/
theorem C18_draw_collision_flag_witness :
    ∃ r, CHIP8_EMULATECYCLE idleHost 0 innerSprite = some r ∧ r.code = 0 ∧
      (r.state.V 0xF = 1 ↔
        ∃ row col, row < 2 ∧ col < 8 ∧
          innerSprite.gfx ((innerSprite.V 1 + row) * 64 + (innerSprite.V 0 + col)) = 1 ∧
          innerSprite.memory (innerSprite.I + row) / 2 ^ (7 - col) % 2 = 1) ∧
      (r.state.V 0xF = 1 ∨ r.state.V 0xF = 0) :=
  C18_draw_collision_flag idleHost 0 innerSprite 0 1 2 (by decide) (by decide) (by decide)
    (by decide) (by decide) (by decide) (by decide)

/-! ## Call and return (claim C20) -/

/-- C20: from a state with `sp <= 14` and `pc = p`, with `2NNN` at `p` and `00EE`
stored at `NNN`, two consecutive cycles both return 0 and end with
`pc = p + 2`, `sp` at its original value, the stack entries below `sp`
unchanged, and the registers, `I`, memory and the framebuffer unchanged. -/
theorem C20_call_then_return (h1 h2 : Host) (dt1 dt2 : ℚ) (s : Machine) (nnn : Nat)
    (hn : nnn < 4096) (hsp : s.sp ≤ 14)
    (hop : fetch s = some (0x2000 + nnn))
    (hret : fetch { s with pc := nnn } = some 0x00EE) :
    ∃ r1 r2, CHIP8_EMULATECYCLE h1 dt1 s = some r1 ∧ r1.code = 0 ∧
      CHIP8_EMULATECYCLE h2 dt2 r1.state = some r2 ∧ r2.code = 0 ∧
      r2.state.pc = s.pc + 2 ∧ r2.state.sp = s.sp ∧
      (∀ i, i < s.sp → r2.state.stack i = s.stack i) ∧
      r2.state.V = s.V ∧ r2.state.I = s.I ∧ r2.state.memory = s.memory ∧
      r2.state.gfx = s.gfx := by
  have hpc := fetch_bound hop
  obtain ⟨hM, -, hV, hI, hG, -⟩ := timerAdvance_frame dt1 s
  have hcall := cycle_call_ok h1 dt1 s nnn hn hop (by omega)
  have hback := cycle_return_ok h2 dt2
    { timerAdvance dt1 s with
      opcode := 0x2000 + nnn, stack := upd s.stack s.sp s.pc, sp := s.sp + 1, pc := nnn }
    (by rw [← hret]; exact fetch_congr hM rfl) (by simp only; omega) (by simp only; omega)
  obtain ⟨hM2, -, hV2, hI2, hG2, -⟩ := timerAdvance_frame dt2
    { timerAdvance dt1 s with
      opcode := 0x2000 + nnn, stack := upd s.stack s.sp s.pc, sp := s.sp + 1, pc := nnn }
  refine ⟨_, _, hcall, rfl, hback, rfl, ?_, ?_, ?_, ?_, ?_, ?_, ?_⟩
  · simp only [Nat.add_sub_cancel, upd_same]; omega
  · simp only [Nat.add_sub_cancel]
  · intro i hi
    simp only [Nat.add_sub_cancel]
    rw [upd_ne (by omega), upd_ne (by omega)]
  · exact hV2.trans hV
  · exact hI2.trans hI
  · exact hM2.trans hM
  · exact hG2.trans hG

/-- Witness for C20: `2204` at `0x200` and `00EE` at `0x204`, with `sp = 0`. -/
theorem C20_call_then_return_witness :
    ∃ r1 r2, CHIP8_EMULATECYCLE idleHost 0 callReturn = some r1 ∧ r1.code = 0 ∧
      CHIP8_EMULATECYCLE idleHost 0 r1.state = some r2 ∧ r2.code = 0 ∧
      r2.state.pc = callReturn.pc + 2 ∧ r2.state.sp = callReturn.sp ∧
      (∀ i, i < callReturn.sp → r2.state.stack i = callReturn.stack i) ∧
      r2.state.V = callReturn.V ∧ r2.state.I = callReturn.I ∧
      r2.state.memory = callReturn.memory ∧ r2.state.gfx = callReturn.gfx :=
  C20_call_then_return idleHost idleHost 0 0 callReturn 0x204 (by decide) (by decide)
    (by decide) (by decide)

/-! ## Block transfer (claim C21) -/

/-- The store loop with every address in `memory`: `memory[I + r] = V[r]` for the
registers it runs over, nothing else changes. -/
theorem storeLoop_spec : ∀ (rem reg : Nat) (s : Machine),
    s.I + reg + rem ≤ 4096 →
    storeLoop rem reg s =
      some { s with memory := fun a =>
        if s.I + reg ≤ a ∧ a < s.I + reg + rem then s.V (a - s.I) else s.memory a } := by
  intro rem
  induction rem with
  | zero =>
    intro reg s _
    rw [storeLoop]
    congr 1
    apply Machine.ext <;> try rfl
    funext a
    have c : ¬ (s.I + reg ≤ a ∧ a < s.I + reg + 0) := by omega
    simp only [if_neg c]
  | succ rem ih =>
    intro reg s hb
    have hlt : s.I + reg < MEMORYSIZE := by unfold MEMORYSIZE; omega
    rw [storeLoop, wr_of_lt hlt]
    simp only
    rw [ih (reg + 1) _ (by simp only; omega)]
    congr 1
    apply Machine.ext <;> try rfl
    funext a
    simp only
    by_cases h1 : a = s.I + reg
    · subst h1
      have c1 : ¬ (s.I + (reg + 1) ≤ s.I + reg ∧ s.I + reg < s.I + (reg + 1) + rem) := by omega
      have c2 : s.I + reg ≤ s.I + reg ∧ s.I + reg < s.I + reg + (rem + 1) := by omega
      rw [if_neg c1, if_pos c2, upd_same, Nat.add_sub_cancel_left]
    · by_cases h2 : s.I + (reg + 1) ≤ a ∧ a < s.I + (reg + 1) + rem
      · have c2 : s.I + reg ≤ a ∧ a < s.I + reg + (rem + 1) := by omega
        rw [if_pos h2, if_pos c2]
      · have c2 : ¬ (s.I + reg ≤ a ∧ a < s.I + reg + (rem + 1)) := by omega
        rw [if_neg h2, if_neg c2, upd_ne h1]

/-- The load loop with every address in `memory`: `V[r] = memory[I + r]` for the
registers it runs over, nothing else changes. -/
theorem loadLoop_spec : ∀ (rem reg : Nat) (s : Machine),
    s.I + reg + rem ≤ 4096 →
    loadLoop rem reg s =
      some { s with V := fun k =>
        if reg ≤ k ∧ k < reg + rem then s.memory (s.I + k) else s.V k } := by
  intro rem
  induction rem with
  | zero =>
    intro reg s _
    rw [loadLoop]
    congr 1
    apply Machine.ext <;> try rfl
    funext k
    have c : ¬ (reg ≤ k ∧ k < reg + 0) := by omega
    simp only [if_neg c]
  | succ rem ih =>
    intro reg s hb
    have hlt : s.I + reg < MEMORYSIZE := by unfold MEMORYSIZE; omega
    rw [loadLoop, rd_of_lt hlt]
    simp only
    rw [ih (reg + 1) _ (by simp only [setV]; omega)]
    congr 1
    apply Machine.ext <;> try rfl
    funext k
    simp only [setV]
    by_cases h1 : k = reg
    · subst h1
      have c1 : ¬ (k + 1 ≤ k ∧ k < k + 1 + rem) := by omega
      have c2 : k ≤ k ∧ k < k + (rem + 1) := by omega
      rw [if_neg c1, if_pos c2, upd_same]
    · by_cases h2 : reg + 1 ≤ k ∧ k < reg + 1 + rem
      · have c2 : reg ≤ k ∧ k < reg + (rem + 1) := by omega
        rw [if_pos h2, if_pos c2]
      · have c2 : ¬ (reg ≤ k ∧ k < reg + (rem + 1)) := by omega
        rw [if_neg h2, if_neg c2, upd_ne h1]

/-- What `FX55` does when `I + X` is inside `memory`. -/
theorem cycle_store (h : Host) (dt : ℚ) (s : Machine) (X : Nat) (hX : X ≤ 15)
    (hop : fetch s = some (0xF055 + 0x100 * X)) (hI : s.I + X ≤ 4095) :
    CHIP8_EMULATECYCLE h dt s =
      some ⟨0, { timerAdvance dt s with
                  opcode := 0xF055 + 0x100 * X,
                  memory := fun a =>
                    if s.I + 0 ≤ a ∧ a < s.I + 0 + (X + 1) then s.V (a - s.I) else s.memory a,
                  pc := s.pc + 2 }, h.events⟩ := by
  obtain ⟨h1, h2, -, -, -, h6, -⟩ := decode_nibbles 15 X 5 5 (by omega) (by omega) (by omega)
    (by omega)
  have e : 15 * 4096 + X * 256 + 5 * 16 + 5 = 0xF055 + 0x100 * X := by omega
  rw [e] at h1 h2 h6
  have hpc := fetch_bound hop
  generalize 0xF055 + 0x100 * X = op at hop h1 h2 h6
  obtain ⟨hM, hp, hV, hI', -⟩ := timerAdvance_frame dt s
  rw [cycle_familyF h dt hop h1]
  have hm : (s.pc + 2) % 65536 = s.pc + 2 := by omega
  have hloop := storeLoop_spec (X + 1) 0 { timerAdvance dt s with opcode := op }
    (by simp only [hI']; omega)
  simp only [familyF, h6, h2]
  norm_num only [hloop, finish, if_true, if_false]
  simp only [hM, hV, hI', hp, hm, Nat.add_zero]

/-- What `FX65` does when `I + X` is inside `memory`. -/
theorem cycle_load (h : Host) (dt : ℚ) (s : Machine) (X : Nat) (hX : X ≤ 15)
    (hop : fetch s = some (0xF065 + 0x100 * X)) (hI : s.I + X ≤ 4095) :
    CHIP8_EMULATECYCLE h dt s =
      some ⟨0, { timerAdvance dt s with
                  opcode := 0xF065 + 0x100 * X,
                  V := fun k => if 0 ≤ k ∧ k < 0 + (X + 1) then s.memory (s.I + k) else s.V k,
                  pc := s.pc + 2 }, h.events⟩ := by
  obtain ⟨h1, h2, -, -, -, h6, -⟩ := decode_nibbles 15 X 6 5 (by omega) (by omega) (by omega)
    (by omega)
  have e : 15 * 4096 + X * 256 + 6 * 16 + 5 = 0xF065 + 0x100 * X := by omega
  rw [e] at h1 h2 h6
  have hpc := fetch_bound hop
  generalize 0xF065 + 0x100 * X = op at hop h1 h2 h6
  obtain ⟨hM, hp, hV, hI', -⟩ := timerAdvance_frame dt s
  rw [cycle_familyF h dt hop h1]
  have hm : (s.pc + 2) % 65536 = s.pc + 2 := by omega
  have hloop := loadLoop_spec (X + 1) 0 { timerAdvance dt s with opcode := op }
    (by simp only [hI']; omega)
  simp only [familyF, h6, h2]
  norm_num only [hloop, finish, if_true, if_false]
  simp only [hM, hV, hI', hp, hm, Nat.zero_add]

/-- C21: for `X` in `0..15` and `I + X <= 4095`, `FX55` returns 0, stores
`memory[I + r] = V[r]` for every `r <= X` and leaves `I`, the registers and every
other memory byte unchanged. If `FX65` with the same `X` is then run in any
state `t` that has this memory and the same `I` (its registers being
arbitrary), it returns 0, `V[r]` for every `r <= X` is again the value it had
when `FX55` ran, the registers above `X` stay as they are in `t`, and memory is
untouched. -/
theorem C21_store_then_load (h1 : Host) (dt1 : ℚ) (s : Machine) (X : Nat) (hX : X ≤ 15)
    (hop : fetch s = some (0xF055 + 0x100 * X)) (hI : s.I + X ≤ 4095) :
    ∃ r1, CHIP8_EMULATECYCLE h1 dt1 s = some r1 ∧ r1.code = 0 ∧
      (∀ r, r ≤ X → r1.state.memory (s.I + r) = s.V r) ∧
      (∀ a, (a < s.I ∨ s.I + X < a) → r1.state.memory a = s.memory a) ∧
      r1.state.V = s.V ∧ r1.state.I = s.I ∧ r1.state.pc = s.pc + 2 ∧
      ∀ (h2 : Host) (dt2 : ℚ) (t : Machine),
        t.memory = r1.state.memory → t.I = s.I →
        fetch t = some (0xF065 + 0x100 * X) →
        ∃ r2, CHIP8_EMULATECYCLE h2 dt2 t = some r2 ∧ r2.code = 0 ∧
          (∀ r, r ≤ X → r2.state.V r = s.V r) ∧
          (∀ k, X < k → r2.state.V k = t.V k) ∧
          r2.state.memory = t.memory ∧ r2.state.I = t.I := by
  obtain ⟨-, -, hV, hI', -⟩ := timerAdvance_frame dt1 s
  have hstored : ∀ r, r ≤ X →
      (fun a => if s.I + 0 ≤ a ∧ a < s.I + 0 + (X + 1) then s.V (a - s.I) else s.memory a)
        (s.I + r) = s.V r := by
    intro r hr
    have c : s.I + 0 ≤ s.I + r ∧ s.I + r < s.I + 0 + (X + 1) := by omega
    simp only [if_pos c, Nat.add_sub_cancel_left]
  refine ⟨_, cycle_store h1 dt1 s X hX hop hI, rfl, hstored, ?_, hV, hI', rfl, ?_⟩
  · intro a ha
    have c : ¬ (s.I + 0 ≤ a ∧ a < s.I + 0 + (X + 1)) := by omega
    simp only [if_neg c]
  · intro h2 dt2 t hmem hIt hop2
    simp only at hmem
    obtain ⟨hM2, -, -, hI2, -⟩ := timerAdvance_frame dt2 t
    refine ⟨_, cycle_load h2 dt2 t X hX hop2 (by omega), rfl, ?_, ?_, hM2, hI2⟩
    · intro r hr
      have c : 0 ≤ r ∧ r < 0 + (X + 1) := by omega
      simp only [if_pos c, hmem, hIt]
      exact hstored r hr
    · intro k hk
      have c : ¬ (0 ≤ k ∧ k < 0 + (X + 1)) := by omega
      simp only [if_neg c]

/-- Witness for C21: `blockDemo` runs `F255` with `V0..V2 = 11, 22, 33`; the
registers are then overwritten with `9, 9, 9, 44` and `F265` at `0x202` brings
`V0..V2` back, `V3` staying 44. -/
theorem C21_store_then_load_witness :
    ∃ r1 r2, CHIP8_EMULATECYCLE idleHost 0 blockDemo = some r1 ∧ r1.code = 0 ∧
      (∀ r, r ≤ 2 → r1.state.memory (blockDemo.I + r) = blockDemo.V r) ∧
      r1.state.V = blockDemo.V ∧ r1.state.I = blockDemo.I ∧
      CHIP8_EMULATECYCLE idleHost 0 { r1.state with V := cells [9, 9, 9, 44] } = some r2 ∧
      r2.code = 0 ∧ r2.state.V 0 = 11 ∧ r2.state.V 1 = 22 ∧ r2.state.V 2 = 33 ∧
      r2.state.V 3 = 44 ∧ r2.state.memory = r1.state.memory := by
  obtain ⟨r1, hr1, hc1, hst, hkeep, hV, hI, hpc, hload⟩ :=
    C21_store_then_load idleHost 0 blockDemo 2 (by decide) (by decide) (by decide)
  have hp2 : r1.state.pc = 0x202 := hpc
  have m0 : r1.state.memory 0x202 = 0xF2 :=
    (hkeep 0x202 (Or.inl (by decide))).trans (by decide)
  have m1 : r1.state.memory 0x203 = 0x65 :=
    (hkeep 0x203 (Or.inl (by decide))).trans (by decide)
  obtain ⟨r2, hr2, hc2, hback, habove, hmem, -⟩ :=
    hload idleHost 0 { r1.state with V := cells [9, 9, 9, 44] } rfl hI
      (by simp [fetch, rd, MEMORYSIZE, hp2, m0, m1])
  exact ⟨r1, r2, hr1, hc1, hst, hV, hI, hr2, hc2, hback 0 (by decide), hback 1 (by decide),
    hback 2 (by decide), habove 3 (by decide), hmem⟩

/-! ## The stack pointer (claim C22) -/

theorem finish_sp {b : Bool} {s : Machine} {ev : List SDL_Event} {r : Result}
    (h : finish b s ev = some r) : r.state.sp = s.sp := by
  simp only [finish, Option.some.injEq] at h
  rw [← h]
  cases b <;> rfl

theorem drawLoop_sp (x y : Nat) : ∀ (rem i : Nat) (s s1 : Machine),
    drawLoop x y rem i s = some s1 → s1.sp = s.sp := by
  intro rem
  induction rem with
  | zero =>
    intro i s s1 h
    rw [drawLoop] at h
    simp only [Option.some.injEq] at h
    rw [← h]
  | succ rem ih =>
    intro i s s1 h
    rw [drawLoop] at h
    simp only at h
    split at h
    · split at h
      · have := ih _ _ _ h
        rw [this]
        simp only [setV]
        split <;> rfl
      · simp at h
    · simp at h

theorem storeLoop_sp : ∀ (rem reg : Nat) (s s1 : Machine),
    storeLoop rem reg s = some s1 → s1.sp = s.sp := by
  intro rem
  induction rem with
  | zero =>
    intro reg s s1 h
    rw [storeLoop] at h
    simp only [Option.some.injEq] at h
    rw [← h]
  | succ rem ih =>
    intro reg s s1 h
    rw [storeLoop] at h
    split at h
    · have := ih _ _ _ h
      exact this
    · simp at h

theorem loadLoop_sp : ∀ (rem reg : Nat) (s s1 : Machine),
    loadLoop rem reg s = some s1 → s1.sp = s.sp := by
  intro rem
  induction rem with
  | zero =>
    intro reg s s1 h
    rw [loadLoop] at h
    simp only [Option.some.injEq] at h
    rw [← h]
  | succ rem ih =>
    intro reg s s1 h
    rw [loadLoop] at h
    split at h
    · have := ih _ _ _ h
      exact this
    · simp at h

theorem scanKeys_sp (sc x : Nat) : ∀ (rem i : Nat) (s : Machine),
    (scanKeys sc x rem i s).2.sp = s.sp := by
  intro rem
  induction rem with
  | zero => intro i s; rfl
  | succ rem ih =>
    intro i s
    rw [scanKeys]
    split
    · rfl
    · exact ih _ _

theorem pollKeys_sp (x : Nat) : ∀ (evs : List SDL_Event) (s : Machine),
    (pollKeys x evs s).2.1.sp = s.sp := by
  intro evs
  induction evs with
  | nil => intro s; rfl
  | cons ev rest ih =>
    intro s
    rw [pollKeys]
    split
    · have hk := scanKeys_sp ev.scancode x 16 0 s
      split
      · rename_i s1 heq
        rw [heq] at hk
        exact hk
      · rename_i s1 heq
        rw [heq] at hk
        rw [ih s1]
        exact hk
    · exact ih s

theorem finish_sp_of {b : Bool} {s0 : Machine} {ev : List SDL_Event} {r : Result} {n : Nat}
    (h : finish b s0 ev = some r) (hs : s0.sp = n) : r.state.sp = n := by
  rw [finish_sp h, hs]

theorem op_return_sp {s : Machine} {ev : List SDL_Event} {r : Result}
    (h : op_return s ev = some r) :
    r.state.sp = s.sp ∨ (r.state.sp = s.sp + 1 ∧ s.sp ≤ 14) ∨ r.state.sp + 1 = s.sp := by
  unfold op_return at h
  split at h
  · simp at h
  · simp only at h
    split at h
    · simp at h
    · split at h
      · simp only [Option.some.injEq] at h; rw [← h]; exact Or.inl rfl
      · rename_i hne
        have := finish_sp h
        simp only at this hne
        right; right
        rw [this]
        omega

theorem op_call_sp {op : Nat} {s : Machine} {ev : List SDL_Event} {r : Result}
    (h : op_call op s ev = some r) :
    r.state.sp = s.sp ∨ (r.state.sp = s.sp + 1 ∧ s.sp ≤ 14) ∨ r.state.sp + 1 = s.sp := by
  unfold op_call at h
  split at h
  · simp only [Option.some.injEq] at h; rw [← h]; exact Or.inl rfl
  · rename_i hne
    split at h
    · simp at h
    · rename_i stack hwr
      have hlt : s.sp < STACKSIZE := by
        unfold wr at hwr
        by_cases hc : s.sp < STACKSIZE
        · exact hc
        · simp [hc] at hwr
      unfold STACKSIZE at hlt
      have := finish_sp h
      simp only at this
      right; left
      rw [this]
      omega

theorem family0_sp {op : Nat} {s : Machine} {ev : List SDL_Event} {r : Result}
    (h : family0 op s ev = some r) :
    r.state.sp = s.sp ∨ (r.state.sp = s.sp + 1 ∧ s.sp ≤ 14) ∨ r.state.sp + 1 = s.sp := by
  unfold family0 at h
  split at h
  · exact Or.inl (finish_sp_of h rfl)
  · split at h
    · exact op_return_sp h
    · exact Or.inl (finish_sp_of h rfl)

theorem family8_sp {op : Nat} {s : Machine} {ev : List SDL_Event} {r : Result}
    (h : family8 op s ev = some r) : r.state.sp = s.sp := by
  unfold family8 at h
  split_ifs at h
  all_goals rw [finish_sp h]
  all_goals first
    | rfl
    | (simp only [op_addReg, op_subReg, op_shr, op_subnReg, op_shl, setV]; split <;> rfl)

theorem op_draw_sp {op : Nat} {s : Machine} {ev : List SDL_Event} {r : Result}
    (h : op_draw op s ev = some r) : r.state.sp = s.sp := by
  unfold op_draw at h
  split at h
  · rename_i s1 hd
    rw [finish_sp h, drawLoop_sp _ _ _ _ _ _ hd]
    rfl
  · simp at h

theorem familyE_sp {hst : Host} {op : Nat} {s : Machine} {ev : List SDL_Event} {r : Result}
    (h : familyE hst op s ev = some r) : r.state.sp = s.sp := by
  unfold familyE at h
  split at h
  · split at h
    · rw [finish_sp h]; split <;> rfl
    · simp at h
  · split at h
    · split at h
      · rw [finish_sp h]; split <;> rfl
      · simp at h
    · exact finish_sp_of h rfl

theorem op_bcd_sp {op : Nat} {s : Machine} {ev : List SDL_Event} {r : Result}
    (h : op_bcd op s ev = some r) : r.state.sp = s.sp := by
  unfold op_bcd at h
  split at h
  · simp at h
  · split at h
    · simp at h
    · split at h
      · simp at h
      · exact finish_sp_of h rfl

theorem familyF_sp {op : Nat} {s : Machine} {ev : List SDL_Event} {r : Result}
    (h : familyF op s ev = some r) : r.state.sp = s.sp := by
  unfold familyF at h
  by_cases c1 : op &&& 0x00FF = 0x0007
  · rw [if_pos c1] at h; exact finish_sp_of h rfl
  rw [if_neg c1] at h
  by_cases c2 : op &&& 0x00FF = 0x000A
  · rw [if_pos c2] at h
    unfold op_waitKey at h
    rw [finish_sp h]
    exact pollKeys_sp _ _ _
  rw [if_neg c2] at h
  by_cases c3 : op &&& 0x00FF = 0x0015
  · rw [if_pos c3] at h; exact finish_sp_of h rfl
  rw [if_neg c3] at h
  by_cases c4 : op &&& 0x00FF = 0x0018
  · rw [if_pos c4] at h; exact finish_sp_of h rfl
  rw [if_neg c4] at h
  by_cases c5 : op &&& 0x00FF = 0x001E
  · rw [if_pos c5] at h; exact finish_sp_of h rfl
  rw [if_neg c5] at h
  by_cases c6 : op &&& 0x00FF = 0x0029
  · rw [if_pos c6] at h; exact finish_sp_of h rfl
  rw [if_neg c6] at h
  by_cases c7 : op &&& 0x00FF = 0x0033
  · rw [if_pos c7] at h; exact op_bcd_sp h
  rw [if_neg c7] at h
  by_cases c8 : op &&& 0x00FF = 0x0055
  · rw [if_pos c8] at h
    split at h
    · rename_i s1 hl
      rw [finish_sp h]; exact storeLoop_sp _ _ _ _ hl
    · simp at h
  rw [if_neg c8] at h
  by_cases c9 : op &&& 0x00FF = 0x0065
  · rw [if_pos c9] at h
    split at h
    · rename_i s1 hl
      rw [finish_sp h]; exact loadLoop_sp _ _ _ _ hl
    · simp at h
  rw [if_neg c9] at h
  exact finish_sp_of h rfl

/-- The outer switch moves `sp` by at most one: up only in a call, which needs
`sp <= 14`, and down only in a return. -/
theorem execute_sp {hst : Host} {op : Nat} {s : Machine} {r : Result}
    (h : execute hst op s = some r) :
    r.state.sp = s.sp ∨ (r.state.sp = s.sp + 1 ∧ s.sp ≤ 14) ∨ r.state.sp + 1 = s.sp := by
  unfold execute at h
  by_cases c0 : op &&& 0xF000 = 0x0000
  · rw [if_pos c0] at h; exact family0_sp h
  rw [if_neg c0] at h
  by_cases c1 : op &&& 0xF000 = 0x1000
  · rw [if_pos c1] at h; left; exact finish_sp_of h rfl
  rw [if_neg c1] at h
  by_cases c2 : op &&& 0xF000 = 0x2000
  · rw [if_pos c2] at h; exact op_call_sp h
  rw [if_neg c2] at h
  by_cases c3 : op &&& 0xF000 = 0x3000
  · rw [if_pos c3] at h; left; rw [@finish_sp true _ _ _ h]; split <;> rfl
  rw [if_neg c3] at h
  by_cases c4 : op &&& 0xF000 = 0x4000
  · rw [if_pos c4] at h; left; rw [@finish_sp true _ _ _ h]; split <;> rfl
  rw [if_neg c4] at h
  by_cases c5 : op &&& 0xF000 = 0x5000
  · rw [if_pos c5] at h; left; rw [@finish_sp true _ _ _ h]; split <;> rfl
  rw [if_neg c5] at h
  by_cases c6 : op &&& 0xF000 = 0x6000
  · rw [if_pos c6] at h; left; exact finish_sp_of h rfl
  rw [if_neg c6] at h
  by_cases c7 : op &&& 0xF000 = 0x7000
  · rw [if_pos c7] at h; left; exact finish_sp_of h rfl
  rw [if_neg c7] at h
  by_cases c8 : op &&& 0xF000 = 0x8000
  · rw [if_pos c8] at h; left; exact family8_sp h
  rw [if_neg c8] at h
  by_cases c9 : op &&& 0xF000 = 0x9000
  · rw [if_pos c9] at h; left; rw [@finish_sp true _ _ _ h]; split <;> rfl
  rw [if_neg c9] at h
  by_cases c10 : op &&& 0xF000 = 0xA000
  · rw [if_pos c10] at h; left; exact finish_sp_of h rfl
  rw [if_neg c10] at h
  by_cases c11 : op &&& 0xF000 = 0xB000
  · rw [if_pos c11] at h; left; exact finish_sp_of h rfl
  rw [if_neg c11] at h
  by_cases c12 : op &&& 0xF000 = 0xC000
  · rw [if_pos c12] at h; left; exact finish_sp_of h rfl
  rw [if_neg c12] at h
  by_cases c13 : op &&& 0xF000 = 0xD000
  · rw [if_pos c13] at h; left; exact op_draw_sp h
  rw [if_neg c13] at h
  by_cases c14 : op &&& 0xF000 = 0xE000
  · rw [if_pos c14] at h; left; exact familyE_sp h
  rw [if_neg c14] at h
  by_cases c15 : op &&& 0xF000 = 0xF000
  · rw [if_pos c15] at h; left; exact familyF_sp h
  rw [if_neg c15] at h
  left; exact finish_sp_of h rfl

/-- One cycle that returns moves `sp` by at most one: up only with `sp <= 14`. -/
theorem cycle_sp {h : Host} {dt : ℚ} {s : Machine} {r : Result}
    (hr : CHIP8_EMULATECYCLE h dt s = some r) :
    r.state.sp = s.sp ∨ (r.state.sp = s.sp + 1 ∧ s.sp ≤ 14) ∨ r.state.sp + 1 = s.sp := by
  obtain ⟨-, -, -, -, -, -, hsp, -⟩ := timerAdvance_frame dt s
  cases hf : fetch s with
  | none => rw [cycle_fetch_oob h dt hf] at hr; exact absurd hr (by simp)
  | some op =>
    by_cases h0 : op = 0
    · subst h0
      rw [cycle_halt h dt hf] at hr
      simp only [Option.some.injEq] at hr
      rw [← hr]
      exact Or.inl hsp
    · rw [cycle_eq h dt hf h0] at hr
      have := execute_sp hr
      simp only [hsp] at this
      exact this

theorem initialize_sp {progFile : Option (List Nat)} {s0 s1 : Machine} {c : Nat}
    (h : CHIP8_INITIALIZE progFile s0 = some (c, s1)) : s1.sp = 0 := by
  unfold CHIP8_INITIALIZE at h
  simp only at h
  split at h
  · simp at h
  · split at h
    · simp only [Option.some.injEq, Prod.mk.injEq] at h
      rw [← h.2]
    · split at h
      · simp only [Option.some.injEq, Prod.mk.injEq] at h
        rw [← h.2]
      · simp at h

theorem cycles_sp : ∀ (frames : List (Host × ℚ)) (s s1 : Machine) (c : Nat),
    s.sp ≤ 15 → cycles frames s = some (c, s1) → s1.sp ≤ 15 := by
  intro frames
  induction frames with
  | nil =>
    intro s s1 c hs h
    simp only [cycles, Option.some.injEq, Prod.mk.injEq] at h
    rw [← h.2]; exact hs
  | cons f rest ih =>
    intro s s1 c hs h
    obtain ⟨hst, dt⟩ := f
    simp only [cycles] at h
    cases hstep : CHIP8_EMULATECYCLE hst dt s with
    | none => rw [hstep] at h; simp at h
    | some r =>
      rw [hstep] at h
      simp only at h
      have hr : r.state.sp ≤ 15 := by
        rcases cycle_sp hstep with e | e | e <;> omega
      by_cases hc : r.code = 0
      · rw [if_pos hc] at h
        exact ih r.state s1 c hr h
      · rw [if_neg hc] at h
        simp only [Option.some.injEq, Prod.mk.injEq] at h
        rw [← h.2]; exact hr

/-- After loading an empty program file the word at `0x200` is zero. -/
theorem fetch_after_empty_load (s : Machine) :
    fetch { s with
      pc := 0x200, opcode := 0, I := 0, sp := 0,
      gfx := memset0 s.gfx (SCREENX * SCREENY),
      stack := memsetWide s.stack 2 STACKSIZE,
      V := memset0 s.V REGISTERCOUNT,
      memory := fun j =>
        if 0x200 ≤ j ∧ j < 0x200 + ([] : List Nat).length then ([] : List Nat).getD (j - 0x200) 0
        else if 0 ≤ j ∧ j < 0 + chip8_fontset.length then chip8_fontset.getD (j - 0) 0
        else memset0 s.memory MEMORYSIZE j,
      delay_timer := 0, sound_timer := 0 } = some 0 := by
  simp [fetch, rd, MEMORYSIZE, memset0, fontset_length]

/-- C22: for every state with `sp <= 15`, every host input and elapsed time, a
cycle that returns (with whatever code) leaves `sp <= 15` and has moved `sp` by
at most one. A call `2NNN` from such a state always returns: either it is
refused with code 2 and leaves `sp` and the stack alone, or it writes the stack
at index `sp < 16` only and raises `sp` by one; a return `00EE` with
`1 <= sp <= 15` returns 0 and lowers `sp` by one. Hence after
`CHIP8_INITIALIZE` and any number of cycles of the host loop, `sp <= 15`. -/
theorem C22_stack_pointer_invariant :
    (∀ (h : Host) (dt : ℚ) (s : Machine) (r : Result),
      s.sp ≤ 15 → CHIP8_EMULATECYCLE h dt s = some r →
      r.state.sp ≤ 15 ∧
        (r.state.sp = s.sp ∨ r.state.sp = s.sp + 1 ∨ r.state.sp + 1 = s.sp)) ∧
    (∀ (h : Host) (dt : ℚ) (s : Machine) (nnn : Nat),
      s.sp ≤ 15 → nnn < 4096 → fetch s = some (0x2000 + nnn) →
      ∃ r, CHIP8_EMULATECYCLE h dt s = some r ∧
        ((r.code = 2 ∧ r.state.stack = s.stack ∧ r.state.sp = s.sp) ∨
         (r.code = 0 ∧ s.sp < 16 ∧ r.state.stack = upd s.stack s.sp s.pc ∧
           r.state.sp = s.sp + 1))) ∧
    (∀ (h : Host) (dt : ℚ) (s : Machine),
      1 ≤ s.sp → s.sp ≤ 15 → fetch s = some 0x00EE →
      ∃ r, CHIP8_EMULATECYCLE h dt s = some r ∧ r.code = 0 ∧ r.state.sp + 1 = s.sp) ∧
    (∀ (progFile : Option (List Nat)) (s0 s1 s2 : Machine) (c c2 : Nat)
        (frames : List (Host × ℚ)),
      CHIP8_INITIALIZE progFile s0 = some (c, s1) → cycles frames s1 = some (c2, s2) →
      s1.sp ≤ 15 ∧ s2.sp ≤ 15) := by
  refine ⟨?_, ?_, ?_, ?_⟩
  · intro h dt s r hs hr
    rcases cycle_sp hr with e | e | e
    · exact ⟨by omega, Or.inl e⟩
    · exact ⟨by omega, Or.inr (Or.inl e.1)⟩
    · exact ⟨by omega, Or.inr (Or.inr e)⟩
  · intro h dt s nnn hs hn hop
    obtain ⟨-, -, -, -, -, hst, hsp, -⟩ := timerAdvance_frame dt s
    by_cases h15 : s.sp = 15
    · exact ⟨_, cycle_call_refused h dt s nnn hn hop h15, Or.inl ⟨rfl, hst, hsp⟩⟩
    · exact ⟨_, cycle_call_ok h dt s nnn hn hop (by omega),
        Or.inr ⟨rfl, by omega, rfl, rfl⟩⟩
  · intro h dt s h1 h15 hop
    refine ⟨_, cycle_return_ok h dt s hop h1 (by omega), rfl, ?_⟩
    simp only
    omega
  · intro progFile s0 s1 s2 c c2 frames hinit hrun
    have h0 := initialize_sp hinit
    exact ⟨by omega, cycles_sp frames s1 s2 c2 (by omega) hrun⟩

/-- Witness for C22: one call of the call chain from `sp = 0`, and one cycle of
the host loop after an initialisation with an empty program file (the zero word
at `0x200` halts it). -/
theorem C22_stack_pointer_invariant_witness :
    (∃ r, CHIP8_EMULATECYCLE idleHost 0 callChain = some r ∧
      ((r.code = 2 ∧ r.state.stack = callChain.stack ∧ r.state.sp = callChain.sp) ∨
       (r.code = 0 ∧ callChain.sp < 16 ∧
         r.state.stack = upd callChain.stack callChain.sp callChain.pc ∧
         r.state.sp = callChain.sp + 1)) ∧
      r.state.sp ≤ 15 ∧
      (r.state.sp = callChain.sp ∨ r.state.sp = callChain.sp + 1 ∨
        r.state.sp + 1 = callChain.sp)) ∧
    (∃ s1 s2 c2, CHIP8_INITIALIZE (some []) usedStack = some (0, s1) ∧
      cycles [(idleHost, 0)] s1 = some (c2, s2) ∧ s1.sp ≤ 15 ∧ s2.sp ≤ 15) := by
  constructor
  · obtain ⟨r, hr, hcall⟩ := C22_stack_pointer_invariant.2.1 idleHost 0 callChain 0x222
      (by decide) (by decide) (fetch_all_calls (fun _ => rfl) (by decide))
    obtain ⟨h15, hmove⟩ := C22_stack_pointer_invariant.1 idleHost 0 callChain r (by decide) hr
    exact ⟨r, hr, hcall, h15, hmove⟩
  · obtain ⟨s1, hinit, hfetch⟩ :
        ∃ s1, CHIP8_INITIALIZE (some []) usedStack = some (0, s1) ∧ fetch s1 = some 0 :=
      ⟨_, initialize_ok [] usedStack (by simp), fetch_after_empty_load usedStack⟩
    have hhalt := cycle_halt idleHost 0 hfetch
    have hrun : cycles [(idleHost, 0)] s1
        = some (1, { timerAdvance 0 s1 with opcode := 0 }) := by
      simp only [cycles, hhalt]
      rfl
    obtain ⟨h1, h2⟩ := C22_stack_pointer_invariant.2.2.2 (some []) usedStack s1
      { timerAdvance 0 s1 with opcode := 0 } 0 1 [(idleHost, 0)] hinit hrun
    exact ⟨s1, _, 1, hinit, hrun, h1, h2⟩

end Chip8Emu
